import Mathlib

/-!
# Catalog store of `xuckne/api`

A shallow embedding of `storage/json_storage.go` (with the records of
`models/book.go`) and theorems about the in-memory catalog it maintains.

Conventions of the embedding.

* The receiver `s.data` is passed explicitly: every store method takes the
  catalog and returns the catalog it leaves behind, together with its `error`
  result (`none` is Go's `nil`).
* Go's `-1` for "no index" is `none`.
* `int` fields are `Int`. In catalogs reachable from the empty one the counters
  `Total` and `Read` are counts over a member list, far below `2^63`, so no
  wrap-around is modelled; statements about the value of a counter are made for
  reachable catalogs or under a hypothesis that ties the counter to a list count.
* `strings.EqualFold` belongs to the Go standard library. It is modelled as
  equality of the rune-wise canonical case folds. ASCII letters fold to lower
  case as in Go's fast path; the fold of the remaining runes comes from the
  Unicode tables, which enter as the parameter `tbl` (for the Kelvin sign it
  gives `k`, the representative of its fold orbit). Every theorem holds for
  every `tbl`. Strings are sequences of Unicode scalar values, as the stored
  fields are after the JSON decoding of the request bodies.
* `save` writes to the file system; the outcome of the write is the parameter
  `io`.
* `float64` is `Float`; the percentages are computed as in the source and only
  their zero default is reasoned about.
* A Go `map[string]int` is a list of key/value pairs read through lookups.
* The handlers are embedded from the parsed request body onwards; they return
  the catalog they leave and the HTTP status.
-/

namespace Library

/-! ## Records (`models/book.go`) -/

/-- A catalog entry, `models.Book`. -/
structure Book where
  Title : String
  Author : String
  Genre : String
  Year : Int
  Read : Bool
  Quotes : List String
  Series : String
  SeriesOrder : Int
deriving DecidableEq, Repr

/-- A series aggregate, `models.BookSeries`. -/
structure BookSeries where
  Name : String
  Books : List Book
  Total : Int
  Read : Int
deriving DecidableEq, Repr

/-- The whole catalog, `models.LibraryStorage`. -/
structure LibraryStorage where
  Books : List Book
  Series : List BookSeries
deriving DecidableEq, Repr

/-- The catalog `NewJSONStorage` starts from when no file exists. -/
def emptyCatalog : LibraryStorage := { Books := [], Series := [] }

/-! ## Case-insensitive comparison -/

/-- Canonical case fold of one rune: lower case on ASCII, `tbl` elsewhere. -/
def foldRune (tbl : Char → Char) (c : Char) : Char :=
  if c.toNat < 128 then c.toLower else tbl c

/-- Model of `strings.EqualFold`: the two strings have the same rune-wise fold. -/
def EqualFold (tbl : Char → Char) (s t : String) : Bool :=
  decide (s.data.map (foldRune tbl) = t.data.map (foldRune tbl))

/-! ## Persistence -/

/-- Model of `save`: the error (if any) of writing catalog `d` out. -/
def save (io : LibraryStorage → Option String) (d : LibraryStorage) : Option String :=
  io d

/-! ## Lookup helpers -/

/-- The test of the loop in `findBookIndex`. -/
def bookMatches (tbl : Char → Char) (author title : String) (book : Book) : Bool :=
  EqualFold tbl book.Author author && EqualFold tbl book.Title title

/-- The test used on series members (title first, then author). -/
def memberMatches (tbl : Char → Char) (title author : String) (book : Book) : Bool :=
  EqualFold tbl book.Title title && EqualFold tbl book.Author author

/-- Index of the first book matching `(author, title)`, as `findBookIndex`. -/
def findBookIndex (tbl : Char → Char) (books : List Book) (author title : String) :
    Option Nat :=
  books.findIdx? (bookMatches tbl author title)

/-- Index of the first series whose name matches `name`, as `findSeriesIndex`. -/
def findSeriesIndex (tbl : Char → Char) (series : List BookSeries) (name : String) :
    Option Nat :=
  series.findIdx? (fun sr => EqualFold tbl sr.Name name)

/-! ## Series maintenance -/

/-- Embedding of `updateSeries`, on the series collection. -/
def updateSeries (tbl : Char → Char) (series : List BookSeries) (seriesName : String)
    (book : Book) : List BookSeries :=
  match findSeriesIndex tbl series seriesName with
  | some idx =>
    match series[idx]? with
    | none => series
    | some sr =>
      if sr.Books.any (memberMatches tbl book.Title book.Author) then series
      else
        series.set idx
          { sr with
            Books := sr.Books ++ [book]
            Total := sr.Total + 1
            Read := if book.Read then sr.Read + 1 else sr.Read }
  | none =>
    series ++
      [{ Name := seriesName, Books := [book], Total := 1,
         Read := if book.Read then 1 else 0 }]

/-- Embedding of `removeBookFromSeries`, on the series collection. -/
def removeBookFromSeries (tbl : Char → Char) (series : List BookSeries)
    (seriesName title author : String) : List BookSeries :=
  match findSeriesIndex tbl series seriesName with
  | none => series
  | some sIdx =>
    match series[sIdx]? with
    | none => series
    | some sr =>
      match sr.Books.findIdx? (memberMatches tbl title author) with
      | none => series
      | some j =>
        match sr.Books[j]? with
        | none => series
        | some book =>
          let sr1 : BookSeries :=
            { sr with
              Books := sr.Books.eraseIdx j
              Total := sr.Total - 1
              Read := if book.Read then sr.Read - 1 else sr.Read }
          if sr1.Books.length = 0 then series.eraseIdx sIdx else series.set sIdx sr1

/-- Embedding of `updateSeriesReadStatus`, on the series collection. -/
def updateSeriesReadStatus (tbl : Char → Char) (series : List BookSeries)
    (seriesName title author : String) (read : Bool) : List BookSeries :=
  match findSeriesIndex tbl series seriesName with
  | none => series
  | some sIdx =>
    match series[sIdx]? with
    | none => series
    | some sr =>
      match sr.Books.findIdx? (memberMatches tbl title author) with
      | none => series
      | some j =>
        match sr.Books[j]? with
        | none => series
        | some book =>
          series.set sIdx
            { sr with
              Read :=
                if read && !book.Read then sr.Read + 1
                else if !read && book.Read then sr.Read - 1
                else sr.Read
              Books := sr.Books.set j { book with Read := read } }

/-! ## Public methods -/

/-- Embedding of `GetAllBooks`. -/
def GetAllBooks (d : LibraryStorage) : List Book := d.Books

/-- Embedding of `GetBook`: `none` is the result `(nil, false)`. -/
def GetBook (tbl : Char → Char) (d : LibraryStorage) (author title : String) :
    Option Book :=
  match findBookIndex tbl d.Books author title with
  | none => none
  | some idx => d.Books[idx]?

/-- Embedding of `AddBook`. -/
def AddBook (tbl : Char → Char) (io : LibraryStorage → Option String)
    (d : LibraryStorage) (book : Book) : LibraryStorage × Option String :=
  if book.Author = "" ∨ book.Title = "" then (d, none)
  else
    let d1 : LibraryStorage :=
      { Books := d.Books ++ [book]
        Series :=
          if book.Series ≠ "" then updateSeries tbl d.Series book.Series book
          else d.Series }
    (d1, save io d1)

/-- The field assignments of `EditBook` applied to the stored book. -/
def editFields (oldBook newBook : Book) : Book :=
  let b1 := if newBook.Author ≠ "" then { oldBook with Author := newBook.Author } else oldBook
  let b2 := if newBook.Title ≠ "" then { b1 with Title := newBook.Title } else b1
  let b3 := if newBook.Genre ≠ "" then { b2 with Genre := newBook.Genre } else b2
  let b4 := if newBook.Year ≥ 0 then { b3 with Year := newBook.Year } else b3
  if newBook.Series ≠ "" then
    { b4 with Series := newBook.Series, SeriesOrder := newBook.SeriesOrder }
  else
    { b4 with Series := "", SeriesOrder := 0 }

/-- Embedding of `EditBook`. -/
def EditBook (tbl : Char → Char) (io : LibraryStorage → Option String)
    (d : LibraryStorage) (oldAuthor oldTitle : String) (newBook : Book) :
    LibraryStorage × Option String :=
  match findBookIndex tbl d.Books oldAuthor oldTitle with
  | none => (d, none)
  | some idx =>
    match d.Books[idx]? with
    | none => (d, none)
    | some oldBook =>
      let series1 :=
        if newBook.Series ≠ "" ∧ oldBook.Series ≠ newBook.Series then
          updateSeries tbl
            (removeBookFromSeries tbl d.Series oldBook.Series oldBook.Title oldBook.Author)
            newBook.Series newBook
        else if newBook.Series = "" ∧ oldBook.Series ≠ "" then
          removeBookFromSeries tbl d.Series oldBook.Series oldBook.Title oldBook.Author
        else d.Series
      let d1 : LibraryStorage :=
        { Books := d.Books.set idx (editFields oldBook newBook), Series := series1 }
      (d1, save io d1)

/-- Embedding of `RemoveBook`. -/
def RemoveBook (tbl : Char → Char) (io : LibraryStorage → Option String)
    (d : LibraryStorage) (author title : String) : LibraryStorage × Option String :=
  match findBookIndex tbl d.Books author title with
  | none => (d, none)
  | some idx =>
    match d.Books[idx]? with
    | none => (d, none)
    | some book =>
      let d1 : LibraryStorage :=
        { Books := d.Books.eraseIdx idx
          Series :=
            if book.Series ≠ "" then
              removeBookFromSeries tbl d.Series book.Series book.Title book.Author
            else d.Series }
      (d1, save io d1)

/-- Embedding of `AddQuote`. -/
def AddQuote (tbl : Char → Char) (io : LibraryStorage → Option String)
    (d : LibraryStorage) (author title quote : String) : LibraryStorage × Option String :=
  match findBookIndex tbl d.Books author title with
  | none => (d, none)
  | some idx =>
    match d.Books[idx]? with
    | none => (d, none)
    | some book =>
      let d1 : LibraryStorage :=
        { d with Books := d.Books.set idx { book with Quotes := book.Quotes ++ [quote] } }
      (d1, save io d1)

/-- Embedding of `GetQuotes`: `none` is the result `(nil, false)`. -/
def GetQuotes (tbl : Char → Char) (d : LibraryStorage) (author title : String) :
    Option (List String) :=
  match findBookIndex tbl d.Books author title with
  | none => none
  | some idx => (d.Books[idx]?).map (fun b => b.Quotes)

/-- Embedding of `MarkAsRead`. -/
def MarkAsRead (tbl : Char → Char) (io : LibraryStorage → Option String)
    (d : LibraryStorage) (author title : String) (read : Bool) :
    LibraryStorage × Option String :=
  match findBookIndex tbl d.Books author title with
  | none => (d, none)
  | some idx =>
    match d.Books[idx]? with
    | none => (d, none)
    | some book =>
      let d1 : LibraryStorage :=
        { Books := d.Books.set idx { book with Read := read }
          Series :=
            if book.Series ≠ "" then
              updateSeriesReadStatus tbl d.Series book.Series title author read
            else d.Series }
      (d1, save io d1)

/-- Embedding of `GetSeries`. -/
def GetSeries (d : LibraryStorage) : List BookSeries := d.Series

/-! ## Reachable catalogs -/

/-- Catalogs reachable from the empty one by store mutations with arbitrary
arguments (and arbitrary outcomes of the write). -/
inductive Reachable (tbl : Char → Char) : LibraryStorage → Prop
  | empty : Reachable tbl emptyCatalog
  | addBook {d : LibraryStorage} (io : LibraryStorage → Option String) (book : Book) :
      Reachable tbl d → Reachable tbl (AddBook tbl io d book).1
  | editBook {d : LibraryStorage} (io : LibraryStorage → Option String)
      (oldAuthor oldTitle : String) (newBook : Book) :
      Reachable tbl d → Reachable tbl (EditBook tbl io d oldAuthor oldTitle newBook).1
  | removeBook {d : LibraryStorage} (io : LibraryStorage → Option String)
      (author title : String) :
      Reachable tbl d → Reachable tbl (RemoveBook tbl io d author title).1
  | addQuote {d : LibraryStorage} (io : LibraryStorage → Option String)
      (author title quote : String) :
      Reachable tbl d → Reachable tbl (AddQuote tbl io d author title quote).1
  | markAsRead {d : LibraryStorage} (io : LibraryStorage → Option String)
      (author title : String) (read : Bool) :
      Reachable tbl d → Reachable tbl (MarkAsRead tbl io d author title read).1

/-! ## Predicates used in the statements -/

/-- The counters of one series agree with its member list. -/
def CountersAgree (sr : BookSeries) : Prop :=
  sr.Total = (sr.Books.length : Int) ∧
    sr.Read = ((sr.Books.countP (fun b => b.Read) : Nat) : Int)

/-- Every series of the collection has counters agreeing with its members. -/
def SeriesCounted (series : List BookSeries) : Prop :=
  ∀ sr ∈ series, CountersAgree sr

/-- No two distinct positions of the book sequence hold books whose authors
and whose titles are both equal case-insensitively. -/
def UniqueKeys (tbl : Char → Char) (books : List Book) : Prop :=
  ∀ (i j : Nat) (bi bj : Book), i ≠ j → books[i]? = some bi → books[j]? = some bj →
    ¬ (EqualFold tbl bi.Author bj.Author = true ∧ EqualFold tbl bi.Title bj.Title = true)

/-- The key that `EditBook` leaves on the book it finds is held by no book at
another position. -/
def EditKeyFresh (tbl : Char → Char) (d : LibraryStorage) (oldAuthor oldTitle : String)
    (newBook : Book) : Prop :=
  ∀ (idx : Nat) (oldBook : Book),
    findBookIndex tbl d.Books oldAuthor oldTitle = some idx → d.Books[idx]? = some oldBook →
    ∀ (j : Nat) (other : Book), j ≠ idx → d.Books[j]? = some other →
      ¬ (EqualFold tbl other.Author (editFields oldBook newBook).Author = true ∧
          EqualFold tbl other.Title (editFields oldBook newBook).Title = true)

/-- Catalogs reachable from the empty one by store mutations in which every
`AddBook` is given a key that `GetBook` does not find and every `EditBook`
leaves a key held by no other book. -/
inductive ReachableFresh (tbl : Char → Char) : LibraryStorage → Prop
  | empty : ReachableFresh tbl emptyCatalog
  | addBook {d : LibraryStorage} (io : LibraryStorage → Option String) (book : Book) :
      ReachableFresh tbl d → GetBook tbl d book.Author book.Title = none →
      ReachableFresh tbl (AddBook tbl io d book).1
  | editBook {d : LibraryStorage} (io : LibraryStorage → Option String)
      (oldAuthor oldTitle : String) (newBook : Book) :
      ReachableFresh tbl d → EditKeyFresh tbl d oldAuthor oldTitle newBook →
      ReachableFresh tbl (EditBook tbl io d oldAuthor oldTitle newBook).1
  | removeBook {d : LibraryStorage} (io : LibraryStorage → Option String)
      (author title : String) :
      ReachableFresh tbl d → ReachableFresh tbl (RemoveBook tbl io d author title).1
  | addQuote {d : LibraryStorage} (io : LibraryStorage → Option String)
      (author title quote : String) :
      ReachableFresh tbl d → ReachableFresh tbl (AddQuote tbl io d author title quote).1
  | markAsRead {d : LibraryStorage} (io : LibraryStorage → Option String)
      (author title : String) (read : Bool) :
      ReachableFresh tbl d → ReachableFresh tbl (MarkAsRead tbl io d author title read).1

/-- The series stored under `name`: the entry at `findSeriesIndex`, if any. -/
def lookupSeries (tbl : Char → Char) (series : List BookSeries) (name : String) :
    Option BookSeries :=
  match findSeriesIndex tbl series name with
  | none => none
  | some idx => series[idx]?

/-- The book's series is `name`, compared as the store compares series names. -/
def inSeries (tbl : Char → Char) (name : String) (b : Book) : Bool :=
  EqualFold tbl b.Series name

/-- The series stored under `name` exists, its `Total` is the number of books of
the book sequence whose series is `name`, and its `Read` is the number of those
whose `Read` flag is set. -/
def SeriesAgreesWithBooks (tbl : Char → Char) (d : LibraryStorage) (name : String) : Prop :=
  ∃ sr, lookupSeries tbl d.Series name = some sr ∧
    sr.Total = ((d.Books.countP (inSeries tbl name) : Nat) : Int) ∧
    sr.Read = ((d.Books.countP (fun b => inSeries tbl name b && b.Read) : Nat) : Int)

/-- The state in which `AddBook book` finds the series of `book`: either there
is no such series and no book of that series, or the series agrees with the book
sequence and none of its members carries the key of `book`. -/
def SeriesReadyFor (tbl : Char → Char) (d : LibraryStorage) (book : Book) : Prop :=
  (lookupSeries tbl d.Series book.Series = none ∧
      ∀ b ∈ d.Books, inSeries tbl book.Series b = false) ∨
    (SeriesAgreesWithBooks tbl d book.Series ∧
      ∀ sr, lookupSeries tbl d.Series book.Series = some sr →
        sr.Books.any (memberMatches tbl book.Title book.Author) = false)

/-- No two distinct positions of the series collection hold series whose names
are equal case-insensitively. -/
def NamesDistinct (tbl : Char → Char) (series : List BookSeries) : Prop :=
  ∀ (i j : Nat) (si sj : BookSeries), i ≠ j → series[i]? = some si → series[j]? = some sj →
    EqualFold tbl si.Name sj.Name = false

/-- The `Read` counter of the series stored under `name` exists in both catalogs
and differs by `delta` from `d` to `d1`. -/
def ReadCountMoves (tbl : Char → Char) (d d1 : LibraryStorage) (name : String)
    (delta : Int) : Prop :=
  ∃ sr sr1, lookupSeries tbl d.Series name = some sr ∧
    lookupSeries tbl d1.Series name = some sr1 ∧ sr1.Read = sr.Read + delta

/-! ## Sample data -/

/-- A write that always succeeds. -/
def ioOk : LibraryStorage → Option String := fun _ => none

/-- The first book of the scenario of the specification. -/
def bookT1 : Book :=
  { Title := "T1", Author := "A", Genre := "G", Year := 2000, Read := false,
    Quotes := [], Series := "S", SeriesOrder := 0 }

/-- The second book of the scenario of the specification. -/
def bookT2 : Book :=
  { Title := "T2", Author := "B", Genre := "G", Year := 2001, Read := false,
    Quotes := [], Series := "S", SeriesOrder := 0 }

/-- A book with the key of `bookT1` and no series. -/
def bookT1Plain : Book :=
  { Title := "T1", Author := "A", Genre := "G", Year := 2000, Read := false,
    Quotes := [], Series := "", SeriesOrder := 0 }

/-- A book with the key of `bookT1` in another series. -/
def bookT1Other : Book :=
  { Title := "T1", Author := "A", Genre := "G", Year := 2000, Read := false,
    Quotes := [], Series := "S2", SeriesOrder := 0 }

/-- New fields for `EditBook` with empty author, title, genre and series. -/
def editNoSeries : Book :=
  { Title := "", Author := "", Genre := "", Year := 2001, Read := false,
    Quotes := [], Series := "", SeriesOrder := 0 }

/-- The scenario of the specification: add `bookT1`, add `bookT2`, mark
`A`/`T1` read, edit `B`/`T2` with `newFields`. -/
def scenarioEdit (tbl : Char → Char) (io : LibraryStorage → Option String)
    (newFields : Book) : LibraryStorage :=
  (EditBook tbl io
    (MarkAsRead tbl io
      (AddBook tbl io (AddBook tbl io emptyCatalog bookT1).1 bookT2).1 "A" "T1" true).1
    "B" "T2" newFields).1

/-- New fields for `EditBook` that only name another series, as the request
layer builds them from a body holding just `series`. -/
def editToS2 : Book :=
  { Title := "", Author := "", Genre := "", Year := 0, Read := false,
    Quotes := [], Series := "S2", SeriesOrder := 0 }

/-- The rule "replaced when the new value is non-empty, unchanged otherwise". -/
def replacedIfNonEmpty (newValue oldValue result : String) : Prop :=
  result = if newValue ≠ "" then newValue else oldValue

/-! ## Statistics (`models.SeriesStat`, `models.Statistics`, `GetStatistics`) -/

/-- Per-series figures, `models.SeriesStat`. -/
structure SeriesStat where
  Name : String
  TotalBooks : Int
  ReadBooks : Int
  Percentage : Float

/-- Aggregate figures, `models.Statistics`. A Go `map[string]int` is a list of
key/value pairs with pairwise distinct keys; only lookups and the values are
observed, never the order. -/
structure Statistics where
  TotalBooks : Int
  ReadBooks : Int
  ReadPercentage : Float
  BooksByGenre : List (String × Int)
  BooksByAuthor : List (String × Int)
  TotalSeries : Int
  SeriesStats : List SeriesStat

/-- Reading `m[k]` with presence, as `v, ok := m[k]`. -/
def mapGet (m : List (String × Int)) (k : String) : Option Int :=
  match m with
  | [] => none
  | (k1, v) :: rest => if k1 = k then some v else mapGet rest k

/-- The statement `m[k]++` on a Go map: a missing key counts as 0. -/
def mapIncr (m : List (String × Int)) (k : String) : List (String × Int) :=
  match m with
  | [] => [(k, 1)]
  | (k1, v) :: rest => if k1 = k then (k1, v + 1) :: rest else (k1, v) :: mapIncr rest k

/-- The expression `float64(read) / float64(total) * 100`. -/
def percentOf (read total : Int) : Float :=
  Float.ofInt read / Float.ofInt total * 100

/-- The body of the loop over the books in `GetStatistics`. -/
def countBook (st : Statistics) (book : Book) : Statistics :=
  { st with
    ReadBooks := if book.Read then st.ReadBooks + 1 else st.ReadBooks
    BooksByGenre := mapIncr st.BooksByGenre book.Genre
    BooksByAuthor := mapIncr st.BooksByAuthor book.Author }

/-- The `SeriesStat` built for one series in the second loop of `GetStatistics`. -/
def seriesStat (series : BookSeries) : SeriesStat :=
  let stat : SeriesStat :=
    { Name := series.Name, TotalBooks := series.Total, ReadBooks := series.Read,
      Percentage := 0 }
  if series.Total > 0 then
    { stat with Percentage := percentOf series.Read series.Total }
  else stat

/-- Embedding of `GetStatistics`. -/
def GetStatistics (d : LibraryStorage) : Statistics :=
  let stats0 : Statistics :=
    { TotalBooks := d.Books.length
      ReadBooks := 0
      ReadPercentage := 0
      BooksByGenre := []
      BooksByAuthor := []
      TotalSeries := d.Series.length
      SeriesStats := [] }
  let stats1 : Statistics := d.Books.foldl countBook stats0
  let stats2 : Statistics :=
    if stats1.TotalBooks > 0 then
      { stats1 with ReadPercentage := percentOf stats1.ReadBooks stats1.TotalBooks }
    else stats1
  d.Series.foldl
    (fun st series => { st with SeriesStats := st.SeriesStats ++ [seriesStat series] })
    stats2

/-- Sum of the values of a map. -/
def mapSum (m : List (String × Int)) : Int :=
  (m.map (fun kv => kv.2)).sum

/-- The catalog after `AddBook` of each book of `books` in turn, starting from `d`. -/
def addBooks (tbl : Char → Char) (io : LibraryStorage → Option String)
    (books : List Book) (d : LibraryStorage) : LibraryStorage :=
  books.foldl (fun acc b => (AddBook tbl io acc b).1) d

/-- Every series of the collection has at least one member. -/
def MembersNonEmpty (series : List BookSeries) : Prop :=
  ∀ sr ∈ series, sr.Books ≠ []

/-- A write that always fails. -/
def ioFail : LibraryStorage → Option String := fun _ => some "write failed"

/-! ## Request layer (`handlers/book_handler.go`) -/

/-- White space as `unicode.IsSpace` defines it. -/
def isSpace (c : Char) : Bool :=
  let n := c.toNat
  (9 ≤ n && n ≤ 13) || n = 32 || n = 0x85 || n = 0xA0 || n = 0x1680 ||
    (0x2000 ≤ n && n ≤ 0x200A) || n = 0x2028 || n = 0x2029 || n = 0x202F ||
    n = 0x205F || n = 0x3000

/-- Model of `strings.TrimSpace`: leading and trailing white space removed. -/
def TrimSpace (s : String) : String :=
  ⟨((s.data.dropWhile isSpace).reverse.dropWhile isSpace).reverse⟩

/-- The body of an add-book request, `AddBookRequest`. -/
structure AddBookRequest where
  Author : String
  Title : String
  Genre : String
  Year : Int
  Series : String
  SeriesOrder : Int

/-- The body of an edit-book request, `EditBookRequest`. -/
structure EditBookRequest where
  Author : String
  Title : String
  Genre : String
  Year : Int
  Series : String
  SeriesOrder : Int

/-- Embedding of the handler `AddBook`: the catalog it leaves and the HTTP
status. The body is `none` when `BodyParser` fails. -/
def BookHandler.AddBook (tbl : Char → Char) (io : LibraryStorage → Option String)
    (d : LibraryStorage) (body : Option AddBookRequest) : LibraryStorage × Nat :=
  match body with
  | none => (d, 400)
  | some req =>
    if req.Author = "" ∨ req.Title = "" ∨ req.Genre = "" then (d, 400)
    else if req.Year < 0 ∨ req.Year > 9999 then (d, 400)
    else
      let book : Book :=
        { Author := TrimSpace req.Author
          Title := TrimSpace req.Title
          Genre := TrimSpace req.Genre
          Year := req.Year
          Read := false
          Quotes := []
          Series := TrimSpace req.Series
          SeriesOrder := req.SeriesOrder }
      let r := Library.AddBook tbl io d book
      if r.2 ≠ none then (r.1, 500) else (r.1, 201)

/-- Embedding of the handler `EditBook`: the catalog it leaves and the HTTP
status. The body is `none` when `BodyParser` fails. -/
def BookHandler.EditBook (tbl : Char → Char) (io : LibraryStorage → Option String)
    (d : LibraryStorage) (authorParam titleParam : String)
    (body : Option EditBookRequest) : LibraryStorage × Nat :=
  let oldAuthor := TrimSpace authorParam
  let oldTitle := TrimSpace titleParam
  match body with
  | none => (d, 400)
  | some req =>
    match GetBook tbl d oldAuthor oldTitle with
    | none => (d, 404)
    | some _ =>
      let newBook : Book :=
        { Author := TrimSpace req.Author
          Title := TrimSpace req.Title
          Genre := TrimSpace req.Genre
          Year := req.Year
          Read := false
          Quotes := []
          Series := TrimSpace req.Series
          SeriesOrder := req.SeriesOrder }
      let r := Library.EditBook tbl io d oldAuthor oldTitle newBook
      if r.2 ≠ none then (r.1, 500) else (r.1, 200)

/-- The add-book request for `bookT1`. -/
def reqAddT1 : AddBookRequest :=
  { Author := "A", Title := "T1", Genre := "G", Year := 2000, Series := "S",
    SeriesOrder := 0 }

/-- An edit-book request that carries only the year 10000. -/
def reqEditYear : EditBookRequest :=
  { Author := "", Title := "", Genre := "", Year := 10000, Series := "", SeriesOrder := 0 }

/-! ## Persisted document (`load`, `save`, the `json` tags of `models/book.go`)

`save` hands the catalog to `json.MarshalIndent` and `load` hands the file to
`json.Unmarshal`. The document is kept as a JSON value: the rendering of a value
as text and the parsing of that text back belong to `encoding/json`. What the
repository decides is the mapping between its records and JSON objects, through
the field tags. A nil slice and an empty slice are the same list here; Go writes
`null` for the first, and `Unmarshal` reads `null` back as a nil slice. -/

/-- A JSON value. Numbers are the integers, the only numbers the records hold. -/
inductive Json where
  | null : Json
  | bool : Bool → Json
  | num : Int → Json
  | str : String → Json
  | arr : List Json → Json
  | obj : List (String × Json) → Json

/-- What `json.Marshal` writes for a `models.Book`: `series` and `series_order`
carry `omitempty`. -/
def marshalBook (b : Book) : Json :=
  Json.obj
    ([("title", Json.str b.Title), ("author", Json.str b.Author),
      ("genre", Json.str b.Genre), ("year", Json.num b.Year), ("read", Json.bool b.Read),
      ("quotes", Json.arr (b.Quotes.map Json.str))] ++
      (if b.Series = "" then [] else [("series", Json.str b.Series)]) ++
      (if b.SeriesOrder = 0 then [] else [("series_order", Json.num b.SeriesOrder)]))

/-- What `json.Marshal` writes for a `models.BookSeries`. -/
def marshalBookSeries (sr : BookSeries) : Json :=
  Json.obj
    [("name", Json.str sr.Name), ("books", Json.arr (sr.Books.map marshalBook)),
      ("total", Json.num sr.Total), ("read", Json.num sr.Read)]

/-- What `json.MarshalIndent(s.data, ...)` writes in `save`. -/
def marshalLibraryStorage (d : LibraryStorage) : Json :=
  Json.obj
    [("books", Json.arr (d.Books.map marshalBook)),
      ("series", Json.arr (d.Series.map marshalBookSeries))]

/-- `json.Unmarshal` into a `string`: `null` leaves the value, any other kind of
value is an error (`none`). -/
def unmarshalString (j : Json) (cur : String) : Option String :=
  match j with
  | Json.str s => some s
  | Json.null => some cur
  | _ => none

/-- `json.Unmarshal` into an `int`. -/
def unmarshalInt (j : Json) (cur : Int) : Option Int :=
  match j with
  | Json.num n => some n
  | Json.null => some cur
  | _ => none

/-- `json.Unmarshal` into a `bool`. -/
def unmarshalBool (j : Json) (cur : Bool) : Option Bool :=
  match j with
  | Json.bool b => some b
  | Json.null => some cur
  | _ => none

/-- `json.Unmarshal` into a `[]string`: the slice is rebuilt from the array. -/
def unmarshalStrings (j : Json) : Option (List String) :=
  match j with
  | Json.arr xs => xs.mapM (fun x => unmarshalString x "")
  | Json.null => some []
  | _ => none

/-- A key of the document names the field tagged `name`: `encoding/json` accepts
the exact name and any case variant of it. -/
def keyIs (tbl : Char → Char) (key name : String) : Bool :=
  EqualFold tbl key name

/-- The zero `models.Book`, into which each element of an array is decoded. -/
def zeroBook : Book :=
  { Title := "", Author := "", Genre := "", Year := 0, Read := false, Quotes := [],
    Series := "", SeriesOrder := 0 }

/-- The zero `models.BookSeries`. -/
def zeroBookSeries : BookSeries :=
  { Name := "", Books := [], Total := 0, Read := 0 }

/-- One key of an object decoded into a `models.Book`; unknown keys are skipped. -/
def setBookField (tbl : Char → Char) (b : Book) (key : String) (v : Json) : Option Book :=
  if keyIs tbl key "title" then (unmarshalString v b.Title).map (fun x => { b with Title := x })
  else if keyIs tbl key "author" then
    (unmarshalString v b.Author).map (fun x => { b with Author := x })
  else if keyIs tbl key "genre" then
    (unmarshalString v b.Genre).map (fun x => { b with Genre := x })
  else if keyIs tbl key "year" then (unmarshalInt v b.Year).map (fun x => { b with Year := x })
  else if keyIs tbl key "read" then (unmarshalBool v b.Read).map (fun x => { b with Read := x })
  else if keyIs tbl key "quotes" then (unmarshalStrings v).map (fun x => { b with Quotes := x })
  else if keyIs tbl key "series" then
    (unmarshalString v b.Series).map (fun x => { b with Series := x })
  else if keyIs tbl key "series_order" then
    (unmarshalInt v b.SeriesOrder).map (fun x => { b with SeriesOrder := x })
  else some b

/-- `json.Unmarshal` into a `models.Book`. -/
def unmarshalBook (tbl : Char → Char) (j : Json) (cur : Book) : Option Book :=
  match j with
  | Json.obj kvs => kvs.foldlM (fun b kv => setBookField tbl b kv.1 kv.2) cur
  | Json.null => some cur
  | _ => none

/-- `json.Unmarshal` into a `[]models.Book`. -/
def unmarshalBooks (tbl : Char → Char) (j : Json) : Option (List Book) :=
  match j with
  | Json.arr xs => xs.mapM (fun x => unmarshalBook tbl x zeroBook)
  | Json.null => some []
  | _ => none

/-- One key of an object decoded into a `models.BookSeries`. -/
def setSeriesField (tbl : Char → Char) (sr : BookSeries) (key : String) (v : Json) :
    Option BookSeries :=
  if keyIs tbl key "name" then (unmarshalString v sr.Name).map (fun x => { sr with Name := x })
  else if keyIs tbl key "books" then (unmarshalBooks tbl v).map (fun x => { sr with Books := x })
  else if keyIs tbl key "total" then (unmarshalInt v sr.Total).map (fun x => { sr with Total := x })
  else if keyIs tbl key "read" then (unmarshalInt v sr.Read).map (fun x => { sr with Read := x })
  else some sr

/-- `json.Unmarshal` into a `models.BookSeries`. -/
def unmarshalBookSeries (tbl : Char → Char) (j : Json) (cur : BookSeries) :
    Option BookSeries :=
  match j with
  | Json.obj kvs => kvs.foldlM (fun sr kv => setSeriesField tbl sr kv.1 kv.2) cur
  | Json.null => some cur
  | _ => none

/-- `json.Unmarshal` into a `[]models.BookSeries`. -/
def unmarshalSeriesList (tbl : Char → Char) (j : Json) : Option (List BookSeries) :=
  match j with
  | Json.arr xs => xs.mapM (fun x => unmarshalBookSeries tbl x zeroBookSeries)
  | Json.null => some []
  | _ => none

/-- One key of the document decoded into `s.data`. -/
def setStorageField (tbl : Char → Char) (d : LibraryStorage) (key : String) (v : Json) :
    Option LibraryStorage :=
  if keyIs tbl key "books" then (unmarshalBooks tbl v).map (fun x => { d with Books := x })
  else if keyIs tbl key "series" then
    (unmarshalSeriesList tbl v).map (fun x => { d with Series := x })
  else some d

/-- `json.Unmarshal(data, &s.data)`. -/
def unmarshalLibraryStorage (tbl : Char → Char) (j : Json) (cur : LibraryStorage) :
    Option LibraryStorage :=
  match j with
  | Json.obj kvs => kvs.foldlM (fun d kv => setStorageField tbl d kv.1 kv.2) cur
  | Json.null => some cur
  | _ => none

/-- Embedding of `load`: `file` is the document on disk, `none` when the file
does not exist; the result is `none` when `load` returns an error. -/
def load (tbl : Char → Char) (file : Option Json) (d : LibraryStorage) :
    Option LibraryStorage :=
  match file with
  | none => some d
  | some doc => unmarshalLibraryStorage tbl doc d

/-- The book sequence holds, at some position, a book matching `(author, title)`
whose quote sequence is `qs`. -/
def HoldsBookWithQuotes (tbl : Char → Char) (d : LibraryStorage) (author title : String)
    (qs : List String) : Prop :=
  ∃ (i : Nat) (b : Book), d.Books[i]? = some b ∧ bookMatches tbl author title b = true ∧
    b.Quotes = qs

/-! ## Properties of the comparison -/

theorem EqualFold_iff (tbl : Char → Char) (s t : String) :
    EqualFold tbl s t = true ↔ s.data.map (foldRune tbl) = t.data.map (foldRune tbl) := by
  simp [EqualFold]

theorem EqualFold_refl (tbl : Char → Char) (s : String) : EqualFold tbl s s = true := by
  simp [EqualFold]

theorem EqualFold_symm (tbl : Char → Char) (s t : String) :
    EqualFold tbl s t = EqualFold tbl t s := by
  simp only [EqualFold, eq_comm]

theorem EqualFold_congr_left (tbl : Char → Char) {s t : String} (u : String)
    (h : EqualFold tbl s t = true) : EqualFold tbl s u = EqualFold tbl t u := by
  rw [EqualFold_iff] at h
  simp only [EqualFold, h]

theorem EqualFold_congr_right (tbl : Char → Char) {s t : String} (u : String)
    (h : EqualFold tbl s t = true) : EqualFold tbl u s = EqualFold tbl u t := by
  rw [EqualFold_iff] at h
  simp only [EqualFold, h]

theorem EqualFold_empty (tbl : Char → Char) (s : String) :
    EqualFold tbl s "" = true ↔ s = "" := by
  rw [EqualFold_iff]
  constructor
  · intro h
    have h1 : s.data = [] := by simpa using h
    cases s
    simp_all
  · rintro rfl
    rfl

/-! ## Counting under `set` and `eraseIdx` -/

theorem countP_eraseIdx_add {α : Type} (p : α → Bool) :
    ∀ (l : List α) (j : Nat) (x : α), l[j]? = some x →
      (l.eraseIdx j).countP p + (if p x then 1 else 0) = l.countP p
  | [], j, x, h => by simp at h
  | a :: l, 0, x, h => by
    simp at h
    subst h
    simp [List.countP_cons]
  | a :: l, j + 1, x, h => by
    simp at h
    have ih := countP_eraseIdx_add p l j x h
    simp only [List.eraseIdx_cons_succ, List.countP_cons]
    omega

theorem countP_set_add {α : Type} (p : α → Bool) :
    ∀ (l : List α) (j : Nat) (x y : α), l[j]? = some x →
      (l.set j y).countP p + (if p x then 1 else 0) = l.countP p + (if p y then 1 else 0)
  | [], j, x, y, h => by simp at h
  | a :: l, 0, x, y, h => by
    simp at h
    subst h
    simp [List.countP_cons]
    omega
  | a :: l, j + 1, x, y, h => by
    simp at h
    have ih := countP_set_add p l j x y h
    simp only [List.set_cons_succ, List.countP_cons]
    omega

theorem length_eraseIdx_add {α : Type} (l : List α) (j : Nat) (x : α) (h : l[j]? = some x) :
    (l.eraseIdx j).length + 1 = l.length := by
  have hj : j < l.length := by
    rcases List.getElem?_eq_some_iff.mp h with ⟨hj, _⟩
    exact hj
  rw [List.length_eraseIdx_of_lt hj]
  omega

theorem mem_of_getElem?_eq_some {α : Type} {l : List α} {i : Nat} {x : α}
    (h : l[i]? = some x) : x ∈ l := by
  rcases List.getElem?_eq_some_iff.mp h with ⟨hi, rfl⟩
  exact List.getElem_mem hi

theorem updateSeries_counted (tbl : Char → Char) (series : List BookSeries)
    (seriesName : String) (book : Book) (h : SeriesCounted series) :
    SeriesCounted (updateSeries tbl series seriesName book) := by
  unfold updateSeries
  split
  · rename_i idx _
    split
    · exact h
    · rename_i sr hsr
      split
      · exact h
      · intro x hx
        rcases List.mem_or_eq_of_mem_set hx with hx | rfl
        · exact h x hx
        · obtain ⟨h1, h2⟩ := h sr (mem_of_getElem?_eq_some hsr)
          constructor
          · simp [h1]
          · cases hb : book.Read <;> simp [h2, hb, List.countP_append, List.countP_cons]
  · intro x hx
    rcases List.mem_append.mp hx with hx | hx
    · exact h x hx
    · simp at hx
      subst hx
      constructor
      · simp
      · cases hb : book.Read <;> simp [hb, List.countP_cons]

theorem removeBookFromSeries_counted (tbl : Char → Char) (series : List BookSeries)
    (seriesName title author : String) (h : SeriesCounted series) :
    SeriesCounted (removeBookFromSeries tbl series seriesName title author) := by
  unfold removeBookFromSeries
  split
  · exact h
  · rename_i sIdx _
    split
    · exact h
    · rename_i sr hsr
      split
      · exact h
      · rename_i j _
        split
        · exact h
        · rename_i book hbook
          simp only
          split
          · intro x hx
            exact h x (List.mem_of_mem_eraseIdx hx)
          · intro x hx
            rcases List.mem_or_eq_of_mem_set hx with hx | rfl
            · exact h x hx
            · obtain ⟨h1, h2⟩ := h sr (mem_of_getElem?_eq_some hsr)
              have hl := length_eraseIdx_add sr.Books j book hbook
              have hc := countP_eraseIdx_add (fun b => b.Read) sr.Books j book hbook
              constructor
              · simp only [h1]
                omega
              · cases hb : book.Read <;> simp only [hb, h2] at hc ⊢ <;> simp at hc ⊢ <;> omega

theorem updateSeriesReadStatus_counted (tbl : Char → Char) (series : List BookSeries)
    (seriesName title author : String) (read : Bool) (h : SeriesCounted series) :
    SeriesCounted (updateSeriesReadStatus tbl series seriesName title author read) := by
  unfold updateSeriesReadStatus
  split
  · exact h
  · rename_i sIdx _
    split
    · exact h
    · rename_i sr hsr
      split
      · exact h
      · rename_i j _
        split
        · exact h
        · rename_i book hbook
          intro x hx
          rcases List.mem_or_eq_of_mem_set hx with hx | rfl
          · exact h x hx
          · obtain ⟨h1, h2⟩ := h sr (mem_of_getElem?_eq_some hsr)
            have hc := countP_set_add (fun b => b.Read) sr.Books j book
              { book with Read := read } hbook
            constructor
            · simp [h1]
            · cases hb : book.Read <;> cases hr : read <;>
                simp only [hb, hr, h2] at hc ⊢ <;> simp at hc ⊢ <;> omega

theorem AddBook_counted (tbl : Char → Char) (io : LibraryStorage → Option String)
    (d : LibraryStorage) (book : Book) (h : SeriesCounted d.Series) :
    SeriesCounted (AddBook tbl io d book).1.Series := by
  unfold AddBook
  split
  · exact h
  · simp only
    split
    · exact updateSeries_counted tbl _ _ _ h
    · exact h

theorem EditBook_counted (tbl : Char → Char) (io : LibraryStorage → Option String)
    (d : LibraryStorage) (oldAuthor oldTitle : String) (newBook : Book)
    (h : SeriesCounted d.Series) :
    SeriesCounted (EditBook tbl io d oldAuthor oldTitle newBook).1.Series := by
  unfold EditBook
  split
  · exact h
  · split
    · exact h
    · simp only
      split
      · exact updateSeries_counted tbl _ _ _ (removeBookFromSeries_counted tbl _ _ _ _ h)
      · split
        · exact removeBookFromSeries_counted tbl _ _ _ _ h
        · exact h

theorem RemoveBook_counted (tbl : Char → Char) (io : LibraryStorage → Option String)
    (d : LibraryStorage) (author title : String) (h : SeriesCounted d.Series) :
    SeriesCounted (RemoveBook tbl io d author title).1.Series := by
  unfold RemoveBook
  split
  · exact h
  · split
    · exact h
    · simp only
      split
      · exact removeBookFromSeries_counted tbl _ _ _ _ h
      · exact h

theorem AddQuote_series (tbl : Char → Char) (io : LibraryStorage → Option String)
    (d : LibraryStorage) (author title quote : String) :
    (AddQuote tbl io d author title quote).1.Series = d.Series := by
  unfold AddQuote
  split
  · rfl
  · split <;> rfl

theorem MarkAsRead_counted (tbl : Char → Char) (io : LibraryStorage → Option String)
    (d : LibraryStorage) (author title : String) (read : Bool)
    (h : SeriesCounted d.Series) :
    SeriesCounted (MarkAsRead tbl io d author title read).1.Series := by
  unfold MarkAsRead
  split
  · exact h
  · split
    · exact h
    · simp only
      split
      · exact updateSeriesReadStatus_counted tbl _ _ _ _ _ h
      · exact h

/-- C1: in every catalog reachable from the empty one by store mutations, each
series has `Total` equal to the length of its member list and `Read` equal to
the number of its members whose `Read` flag is set. -/
theorem C1_series_counters_agree (tbl : Char → Char) (d : LibraryStorage)
    (h : Reachable tbl d) : SeriesCounted d.Series := by
  induction h with
  | empty => intro sr hsr; simp [emptyCatalog] at hsr
  | addBook io book _ ih => exact AddBook_counted tbl io _ book ih
  | editBook io a t nb _ ih => exact EditBook_counted tbl io _ a t nb ih
  | removeBook io a t _ ih => exact RemoveBook_counted tbl io _ a t ih
  | addQuote io a t q _ ih => rw [AddQuote_series]; exact ih
  | markAsRead io a t r _ ih => exact MarkAsRead_counted tbl io _ a t r ih

/-- C1 (witness): the catalog holding `bookT1` is reachable and its series have
agreeing counters. -/
theorem C1_series_counters_agree_witness :
    Reachable id (AddBook id ioOk emptyCatalog bookT1).1 ∧
      SeriesCounted (AddBook id ioOk emptyCatalog bookT1).1.Series :=
  ⟨Reachable.addBook ioOk bookT1 Reachable.empty,
    C1_series_counters_agree id _ (Reachable.addBook ioOk bookT1 Reachable.empty)⟩

/-! ## Looking up by index -/

theorem findIdx?_some_spec {α : Type} {p : α → Bool} {xs : List α} {i : Nat}
    (h : xs.findIdx? p = some i) :
    ∃ x, xs[i]? = some x ∧ p x = true ∧
      ∀ (j : Nat) (y : α), j < i → xs[j]? = some y → p y = false := by
  rcases List.findIdx?_eq_some_iff_getElem.mp h with ⟨hi, hp, hlt⟩
  refine ⟨xs[i], List.getElem?_eq_getElem hi, hp, ?_⟩
  intro j y hj hy
  rcases List.getElem?_eq_some_iff.mp hy with ⟨hj2, rfl⟩
  simpa using hlt j hj

theorem findBookIndex_none_of_GetBook_none (tbl : Char → Char) (d : LibraryStorage)
    (author title : String) (h : GetBook tbl d author title = none) :
    findBookIndex tbl d.Books author title = none := by
  unfold GetBook at h
  split at h
  · assumption
  · rename_i idx hidx
    obtain ⟨x, hx, _⟩ := findIdx?_some_spec hidx
    rw [hx] at h
    cases h

/-! ## Uniqueness of the key -/

theorem UniqueKeys_append (tbl : Char → Char) (books : List Book) (book : Book)
    (h : UniqueKeys tbl books)
    (hnew : findBookIndex tbl books book.Author book.Title = none) :
    UniqueKeys tbl (books ++ [book]) := by
  have hno : ∀ x ∈ books, bookMatches tbl book.Author book.Title x = false :=
    List.findIdx?_eq_none_iff.mp hnew
  intro i j bi bj hij hi hj
  rw [List.getElem?_append] at hi hj
  split at hi <;> split at hj
  · exact h i j bi bj hij hi hj
  · rename_i hil hjl
    have hjb : bj = book := by
      rcases List.getElem?_eq_some_iff.mp hj with ⟨hlt, rfl⟩
      simp
    subst hjb
    have := hno bi (mem_of_getElem?_eq_some hi)
    simpa [bookMatches] using this
  · rename_i hil hjl
    have hib : bi = book := by
      rcases List.getElem?_eq_some_iff.mp hi with ⟨hlt, rfl⟩
      simp
    subst hib
    have := hno bj (mem_of_getElem?_eq_some hj)
    rw [EqualFold_symm tbl _ bj.Author, EqualFold_symm tbl _ bj.Title]
    simpa [bookMatches] using this
  · rename_i hil hjl
    have h1 : i - books.length < 1 := by
      rcases List.getElem?_eq_some_iff.mp hi with ⟨hlt, _⟩
      simpa using hlt
    have h2 : j - books.length < 1 := by
      rcases List.getElem?_eq_some_iff.mp hj with ⟨hlt, _⟩
      simpa using hlt
    omega

theorem UniqueKeys_set (tbl : Char → Char) (books : List Book) (idx : Nat) (b1 : Book)
    (h : UniqueKeys tbl books)
    (hfresh : ∀ (j : Nat) (other : Book), j ≠ idx → books[j]? = some other →
      ¬ (EqualFold tbl other.Author b1.Author = true ∧
          EqualFold tbl other.Title b1.Title = true)) :
    UniqueKeys tbl (books.set idx b1) := by
  intro i j bi bj hij hi hj
  rw [List.getElem?_set] at hi hj
  split at hi <;> split at hj
  · omega
  · rename_i hii hjj
    split at hi
    · cases hi
      rw [EqualFold_symm tbl _ bj.Author, EqualFold_symm tbl _ bj.Title]
      exact hfresh j bj (fun e => hjj e.symm) hj
    · cases hi
  · rename_i hii hjj
    split at hj
    · cases hj
      exact hfresh i bi (fun e => hii e.symm) hi
    · cases hj
  · exact h i j bi bj hij hi hj

theorem UniqueKeys_set_same_key (tbl : Char → Char) (books : List Book) (idx : Nat)
    (b0 b1 : Book) (h : UniqueKeys tbl books) (h0 : books[idx]? = some b0)
    (ha : b1.Author = b0.Author) (ht : b1.Title = b0.Title) :
    UniqueKeys tbl (books.set idx b1) := by
  apply UniqueKeys_set tbl books idx b1 h
  intro j other hj ho
  rw [ha, ht]
  exact h j idx other b0 hj ho h0

theorem UniqueKeys_eraseIdx (tbl : Char → Char) (books : List Book) (idx : Nat)
    (h : UniqueKeys tbl books) : UniqueKeys tbl (books.eraseIdx idx) := by
  intro i j bi bj hij hi hj
  rw [List.getElem?_eraseIdx] at hi hj
  split at hi <;> split at hj
  · exact h i j bi bj hij hi hj
  · exact h i (j + 1) bi bj (by omega) hi hj
  · exact h (i + 1) j bi bj (by omega) hi hj
  · exact h (i + 1) (j + 1) bi bj (by omega) hi hj

/-- C2 (as stated, refuted): adding the same book twice is a sequence of store
mutations, and it leaves two positions with the same key, whatever the fold
table. -/
theorem C2_unique_keys_counterexample :
    ¬ ∃ tbl : Char → Char, ∀ d : LibraryStorage, Reachable tbl d → UniqueKeys tbl d.Books := by
  rintro ⟨tbl, h⟩
  have hr : Reachable tbl (AddBook tbl ioOk (AddBook tbl ioOk emptyCatalog bookT1).1 bookT1).1 :=
    Reachable.addBook ioOk bookT1 (Reachable.addBook ioOk bookT1 Reachable.empty)
  exact h _ hr 0 1 bookT1 bookT1 (by decide) rfl rfl
    ⟨EqualFold_refl tbl _, EqualFold_refl tbl _⟩

/-- C2 (amended): in every catalog reachable from the empty one by store
mutations in which each `AddBook` is given a key that `GetBook` does not find
and each `EditBook` leaves a key held by no other book, no two distinct
positions hold books with case-insensitively equal author and title. -/
theorem C2_unique_keys_when_fresh (tbl : Char → Char) (d : LibraryStorage)
    (h : ReachableFresh tbl d) : UniqueKeys tbl d.Books := by
  induction h with
  | empty =>
    intro i j bi bj _ hi
    simp [emptyCatalog] at hi
  | addBook io book _ hfresh ih =>
    unfold AddBook
    split
    · exact ih
    · exact UniqueKeys_append tbl _ book ih
        (findBookIndex_none_of_GetBook_none tbl _ _ _ hfresh)
  | editBook io a t nb _ hfresh ih =>
    unfold EditBook
    split
    · exact ih
    · rename_i idx hidx
      split
      · exact ih
      · rename_i oldBook hold
        exact UniqueKeys_set tbl _ idx _ ih (hfresh idx oldBook hidx hold)
  | removeBook io a t _ ih =>
    unfold RemoveBook
    split
    · exact ih
    · split
      · exact ih
      · exact UniqueKeys_eraseIdx tbl _ _ ih
  | addQuote io a t q _ ih =>
    unfold AddQuote
    split
    · exact ih
    · split
      · exact ih
      · rename_i book hbook
        exact UniqueKeys_set_same_key tbl _ _ book _ ih hbook rfl rfl
  | markAsRead io a t r _ ih =>
    unfold MarkAsRead
    split
    · exact ih
    · split
      · exact ih
      · rename_i book hbook
        exact UniqueKeys_set_same_key tbl _ _ book _ ih hbook rfl rfl

/-- C2 (witness): the two books of the scenario, added one after the other. -/
theorem C2_unique_keys_when_fresh_witness :
    ReachableFresh id (AddBook id ioOk (AddBook id ioOk emptyCatalog bookT1).1 bookT2).1 ∧
      UniqueKeys id (AddBook id ioOk (AddBook id ioOk emptyCatalog bookT1).1 bookT2).1.Books :=
  ⟨ReachableFresh.addBook ioOk bookT2 (ReachableFresh.addBook ioOk bookT1 ReachableFresh.empty rfl) rfl,
    C2_unique_keys_when_fresh id _
      (ReachableFresh.addBook ioOk bookT2
        (ReachableFresh.addBook ioOk bookT1 ReachableFresh.empty rfl) rfl)⟩

/-! ## The series stored under a name -/

theorem findIdx?_set_same {α : Type} (p : α → Bool) :
    ∀ (xs : List α) (i : Nat) (x y : α), xs[i]? = some x → p y = p x →
      (xs.set i y).findIdx? p = xs.findIdx? p
  | [], i, x, y, h, _ => by simp at h
  | a :: xs, 0, x, y, h, hp => by
    simp at h
    subst h
    simp [List.findIdx?_cons, hp]
  | a :: xs, i + 1, x, y, h, hp => by
    simp at h
    have ih := findIdx?_set_same p xs i x y h hp
    simp [List.findIdx?_cons, ih]

theorem lookupSeries_eq_some (tbl : Char → Char) {series : List BookSeries} {name : String}
    {sr : BookSeries} (h : lookupSeries tbl series name = some sr) :
    ∃ idx, findSeriesIndex tbl series name = some idx ∧ series[idx]? = some sr := by
  unfold lookupSeries at h
  split at h
  · cases h
  · rename_i idx hidx
    exact ⟨idx, hidx, h⟩

theorem lookupSeries_eq_none (tbl : Char → Char) {series : List BookSeries} {name : String}
    (h : lookupSeries tbl series name = none) : findSeriesIndex tbl series name = none := by
  unfold lookupSeries at h
  split at h
  · assumption
  · rename_i idx hidx
    obtain ⟨x, hx, _⟩ := findIdx?_some_spec hidx
    rw [hx] at h
    cases h

theorem lookupSeries_set (tbl : Char → Char) (series : List BookSeries) (name : String)
    (idx : Nat) (sr sr1 : BookSeries) (hidx : findSeriesIndex tbl series name = some idx)
    (hsr : series[idx]? = some sr) (hname : sr1.Name = sr.Name) :
    lookupSeries tbl (series.set idx sr1) name = some sr1 := by
  have hfind : findSeriesIndex tbl (series.set idx sr1) name = some idx := by
    unfold findSeriesIndex at hidx ⊢
    rw [findIdx?_set_same _ series idx sr sr1 hsr (by simp [hname])]
    exact hidx
  have hlt : idx < series.length := by
    rcases List.getElem?_eq_some_iff.mp hsr with ⟨hlt, _⟩
    exact hlt
  unfold lookupSeries
  rw [hfind]
  simp [List.getElem?_set, hlt]

theorem lookupSeries_append_new (tbl : Char → Char) (series : List BookSeries)
    (name : String) (sr1 : BookSeries)
    (hnone : findSeriesIndex tbl series name = none) (hname : sr1.Name = name) :
    lookupSeries tbl (series ++ [sr1]) name = some sr1 := by
  have hfind : findSeriesIndex tbl (series ++ [sr1]) name = some series.length := by
    unfold findSeriesIndex at hnone ⊢
    rw [List.findIdx?_append, hnone]
    simp [List.findIdx?_cons, hname, EqualFold_refl]
  unfold lookupSeries
  rw [hfind]
  simp

/-! ## `AddBook` and the counters of the series -/

theorem AddBook_fst_of_ne (tbl : Char → Char) (io : LibraryStorage → Option String)
    (d : LibraryStorage) (book : Book) (hA : book.Author ≠ "") (hT : book.Title ≠ "") :
    (AddBook tbl io d book).1 =
      { Books := d.Books ++ [book]
        Series :=
          if book.Series ≠ "" then updateSeries tbl d.Series book.Series book
          else d.Series } := by
  unfold AddBook
  rw [if_neg (by simp [hA, hT])]

/-- C3 (as stated, refuted): after adding `bookT1` twice, the series `S` has
`Total = 1` while two books of the sequence have series `S`. -/
theorem C3_series_matches_books_counterexample :
    ¬ ∃ tbl : Char → Char, ∀ d : LibraryStorage, Reachable tbl d →
        ∀ (io : LibraryStorage → Option String) (book : Book),
          book.Author ≠ "" → book.Title ≠ "" → book.Series ≠ "" →
          SeriesAgreesWithBooks tbl (AddBook tbl io d book).1 book.Series := by
  rintro ⟨tbl, h⟩
  have hr : Reachable tbl (AddBook tbl ioOk emptyCatalog bookT1).1 :=
    Reachable.addBook ioOk bookT1 Reachable.empty
  obtain ⟨sr, hsr, htotal, _⟩ :=
    h _ hr ioOk bookT1 (by decide) (by decide) (by decide)
  have hlook : lookupSeries tbl
      (AddBook tbl ioOk (AddBook tbl ioOk emptyCatalog bookT1).1 bookT1).1.Series
      bookT1.Series = some { Name := "S", Books := [bookT1], Total := 1, Read := 0 } := rfl
  have hcount : (AddBook tbl ioOk (AddBook tbl ioOk emptyCatalog bookT1).1 bookT1).1.Books.countP
      (inSeries tbl bookT1.Series) = 2 := rfl
  rw [hlook] at hsr
  cases hsr
  rw [hcount] at htotal
  simp at htotal

/-- C3 (amended): for every catalog and every book `b` with non-empty author,
title and series `s`, if before the call either no series is stored under `s`
and no book has series `s`, or the series stored under `s` agrees with the book
sequence and has no member with the key of `b`, then after `AddBook b` the
series stored under `s` has `Total` equal to the number of books whose series is
`s` and `Read` equal to the number of those whose `Read` flag is set (series
names compared case-insensitively). -/
theorem C3_series_matches_books_when_ready (tbl : Char → Char)
    (io : LibraryStorage → Option String) (d : LibraryStorage) (book : Book)
    (hA : book.Author ≠ "") (hT : book.Title ≠ "") (hS : book.Series ≠ "")
    (hready : SeriesReadyFor tbl d book) :
    SeriesAgreesWithBooks tbl (AddBook tbl io d book).1 book.Series := by
  rw [AddBook_fst_of_ne tbl io d book hA hT, if_pos hS]
  have hself : inSeries tbl book.Series book = true := EqualFold_refl tbl _
  rcases hready with ⟨hnone, hbooks⟩ | ⟨⟨sr, hsr, htotal, hread⟩, hguard⟩
  · have hfind := lookupSeries_eq_none tbl hnone
    have hc0 : d.Books.countP (inSeries tbl book.Series) = 0 := by
      rw [List.countP_eq_zero]
      intro b hb
      simp [hbooks b hb]
    have hc1 : d.Books.countP (fun b => inSeries tbl book.Series b && b.Read) = 0 := by
      rw [List.countP_eq_zero]
      intro b hb
      simp [hbooks b hb]
    refine ⟨{ Name := book.Series, Books := [book], Total := 1,
              Read := if book.Read then 1 else 0 }, ?_, ?_, ?_⟩
    · unfold updateSeries
      rw [hfind]
      exact lookupSeries_append_new tbl _ _ _ hfind rfl
    · simp [List.countP_append, List.countP_cons, hc0, hself]
    · cases hb : book.Read <;> simp [List.countP_append, List.countP_cons, hc1, hself, hb]
  · obtain ⟨idx, hidx, hget⟩ := lookupSeries_eq_some tbl hsr
    have hg := hguard sr hsr
    refine ⟨{ sr with
              Books := sr.Books ++ [book]
              Total := sr.Total + 1
              Read := if book.Read then sr.Read + 1 else sr.Read }, ?_, ?_, ?_⟩
    · unfold updateSeries
      rw [hidx]
      simp only [hget]
      rw [if_neg (by simp [hg])]
      exact lookupSeries_set tbl _ _ idx sr _ hidx hget rfl
    · simp [List.countP_append, List.countP_cons, hself, htotal]
    · cases hb : book.Read <;>
        simp [List.countP_append, List.countP_cons, hself, hread, hb]

/-- C3 (witness): adding `bookT2` to the catalog that holds `bookT1`. -/
theorem C3_series_matches_books_when_ready_witness :
    SeriesReadyFor id (AddBook id ioOk emptyCatalog bookT1).1 bookT2 ∧
      SeriesAgreesWithBooks id
        (AddBook id ioOk (AddBook id ioOk emptyCatalog bookT1).1 bookT2).1 bookT2.Series :=
  have hready : SeriesReadyFor id (AddBook id ioOk emptyCatalog bookT1).1 bookT2 :=
    Or.inr ⟨⟨{ Name := "S", Books := [bookT1], Total := 1, Read := 0 }, rfl, rfl, rfl⟩,
      fun sr hsr => by
        have hlook : lookupSeries id (AddBook id ioOk emptyCatalog bookT1).1.Series
            bookT2.Series = some { Name := "S", Books := [bookT1], Total := 1, Read := 0 } := rfl
        rw [hlook] at hsr
        cases hsr
        rfl⟩
  ⟨hready,
    C3_series_matches_books_when_ready id ioOk _ bookT2 (by decide) (by decide) (by decide)
      hready⟩

/-! ## Series names stay distinct -/

theorem NamesDistinct_set (tbl : Char → Char) (series : List BookSeries) (idx : Nat)
    (sr sr1 : BookSeries) (h : NamesDistinct tbl series) (hget : series[idx]? = some sr)
    (hname : sr1.Name = sr.Name) : NamesDistinct tbl (series.set idx sr1) := by
  intro i j si sj hij hi hj
  rw [List.getElem?_set] at hi hj
  split at hi <;> split at hj
  · omega
  · rename_i hii hjj
    split at hi
    · cases hi
      rw [hname]
      exact h idx j sr sj hjj hget hj
    · cases hi
  · rename_i hii hjj
    split at hj
    · cases hj
      rw [hname]
      exact h i idx si sr (fun e => hii e.symm) hi hget
    · cases hj
  · exact h i j si sj hij hi hj

theorem NamesDistinct_eraseIdx (tbl : Char → Char) (series : List BookSeries) (idx : Nat)
    (h : NamesDistinct tbl series) : NamesDistinct tbl (series.eraseIdx idx) := by
  intro i j si sj hij hi hj
  rw [List.getElem?_eraseIdx] at hi hj
  split at hi <;> split at hj
  · exact h i j si sj hij hi hj
  · exact h i (j + 1) si sj (by omega) hi hj
  · exact h (i + 1) j si sj (by omega) hi hj
  · exact h (i + 1) (j + 1) si sj (by omega) hi hj

theorem NamesDistinct_append (tbl : Char → Char) (series : List BookSeries)
    (sr1 : BookSeries) (h : NamesDistinct tbl series)
    (hnone : findSeriesIndex tbl series sr1.Name = none) :
    NamesDistinct tbl (series ++ [sr1]) := by
  have hno : ∀ x ∈ series, EqualFold tbl x.Name sr1.Name = false :=
    List.findIdx?_eq_none_iff.mp hnone
  intro i j si sj hij hi hj
  rw [List.getElem?_append] at hi hj
  split at hi <;> split at hj
  · exact h i j si sj hij hi hj
  · have hjb : sj = sr1 := by
      rcases List.getElem?_eq_some_iff.mp hj with ⟨hlt, rfl⟩
      simp
    rw [hjb]
    exact hno si (mem_of_getElem?_eq_some hi)
  · have hib : si = sr1 := by
      rcases List.getElem?_eq_some_iff.mp hi with ⟨hlt, rfl⟩
      simp
    rw [hib, EqualFold_symm]
    exact hno sj (mem_of_getElem?_eq_some hj)
  · have h1 : i - series.length < 1 := by
      rcases List.getElem?_eq_some_iff.mp hi with ⟨hlt, _⟩
      simpa using hlt
    have h2 : j - series.length < 1 := by
      rcases List.getElem?_eq_some_iff.mp hj with ⟨hlt, _⟩
      simpa using hlt
    omega

theorem updateSeries_names (tbl : Char → Char) (series : List BookSeries)
    (seriesName : String) (book : Book) (h : NamesDistinct tbl series) :
    NamesDistinct tbl (updateSeries tbl series seriesName book) := by
  unfold updateSeries
  split
  · rename_i idx _
    split
    · exact h
    · rename_i sr hsr
      split
      · exact h
      · exact NamesDistinct_set tbl series idx sr _ h hsr rfl
  · rename_i hnone
    exact NamesDistinct_append tbl series _ h hnone

theorem removeBookFromSeries_names (tbl : Char → Char) (series : List BookSeries)
    (seriesName title author : String) (h : NamesDistinct tbl series) :
    NamesDistinct tbl (removeBookFromSeries tbl series seriesName title author) := by
  unfold removeBookFromSeries
  split
  · exact h
  · rename_i sIdx _
    split
    · exact h
    · rename_i sr hsr
      split
      · exact h
      · split
        · exact h
        · simp only
          split
          · exact NamesDistinct_eraseIdx tbl series sIdx h
          · exact NamesDistinct_set tbl series sIdx sr _ h hsr rfl

theorem updateSeriesReadStatus_names (tbl : Char → Char) (series : List BookSeries)
    (seriesName title author : String) (read : Bool) (h : NamesDistinct tbl series) :
    NamesDistinct tbl (updateSeriesReadStatus tbl series seriesName title author read) := by
  unfold updateSeriesReadStatus
  split
  · exact h
  · rename_i sIdx _
    split
    · exact h
    · rename_i sr hsr
      split
      · exact h
      · split
        · exact h
        · exact NamesDistinct_set tbl series sIdx sr _ h hsr rfl

theorem Reachable_names (tbl : Char → Char) (d : LibraryStorage) (h : Reachable tbl d) :
    NamesDistinct tbl d.Series := by
  induction h with
  | empty =>
    intro i j si sj _ hi
    simp [emptyCatalog] at hi
  | addBook io book _ ih =>
    unfold AddBook
    split
    · exact ih
    · simp only
      split
      · exact updateSeries_names tbl _ _ _ ih
      · exact ih
  | editBook io a t nb _ ih =>
    unfold EditBook
    split
    · exact ih
    · split
      · exact ih
      · simp only
        split
        · exact updateSeries_names tbl _ _ _ (removeBookFromSeries_names tbl _ _ _ _ ih)
        · split
          · exact removeBookFromSeries_names tbl _ _ _ _ ih
          · exact ih
  | removeBook io a t _ ih =>
    unfold RemoveBook
    split
    · exact ih
    · split
      · exact ih
      · simp only
        split
        · exact removeBookFromSeries_names tbl _ _ _ _ ih
        · exact ih
  | addQuote io a t q _ ih =>
    rw [AddQuote_series]
    exact ih
  | markAsRead io a t r _ ih =>
    unfold MarkAsRead
    split
    · exact ih
    · split
      · exact ih
      · simp only
        split
        · exact updateSeriesReadStatus_names tbl _ _ _ _ _ ih
        · exact ih

/-! ## Removing the last member of a series -/

theorem findSeriesIndex_eraseIdx_none (tbl : Char → Char) (series : List BookSeries)
    (name : String) (idx : Nat) (h : NamesDistinct tbl series)
    (hidx : findSeriesIndex tbl series name = some idx) :
    findSeriesIndex tbl (series.eraseIdx idx) name = none := by
  obtain ⟨sr, hsr, hmatch, _⟩ := findIdx?_some_spec hidx
  unfold findSeriesIndex
  rw [List.findIdx?_eq_none_iff]
  intro x hx
  obtain ⟨i, hi, hxi⟩ := List.getElem_of_mem hx
  have hget : (series.eraseIdx idx)[i]? = some x := by
    rw [List.getElem?_eq_getElem hi, hxi]
  rw [List.getElem?_eraseIdx] at hget
  have hne : EqualFold tbl x.Name sr.Name = false := by
    split at hget
    · exact h i idx x sr (by omega) hget hsr
    · exact h (i + 1) idx x sr (by omega) hget hsr
  rw [← EqualFold_congr_right tbl x.Name hmatch]
  exact hne

/-- C4 (as stated, refuted): the store holds `bookT1Plain` and then `bookT1`,
which has the same key and is the only book of series `S`; `RemoveBook` under
that key removes `bookT1Plain`, and the series `S` stays. -/
theorem C4_sole_member_counterexample :
    ¬ ∃ tbl : Char → Char, ∀ d : LibraryStorage, Reachable tbl d →
        ∀ (io : LibraryStorage → Option String) (i : Nat) (b : Book),
          d.Books[i]? = some b → b.Series ≠ "" →
          (∀ (j : Nat) (other : Book), d.Books[j]? = some other →
            inSeries tbl b.Series other = true → j = i) →
          findSeriesIndex tbl (RemoveBook tbl io d b.Author b.Title).1.Series b.Series =
            none := by
  rintro ⟨tbl, h⟩
  have hr : Reachable tbl
      (AddBook tbl ioOk (AddBook tbl ioOk emptyCatalog bookT1Plain).1 bookT1).1 :=
    Reachable.addBook ioOk bookT1 (Reachable.addBook ioOk bookT1Plain Reachable.empty)
  have hsole : ∀ (j : Nat) (other : Book),
      (AddBook tbl ioOk (AddBook tbl ioOk emptyCatalog bookT1Plain).1 bookT1).1.Books[j]? =
        some other →
      inSeries tbl bookT1.Series other = true → j = 1 := by
    intro j other hj hin
    match j with
    | 0 =>
      have h0 : other = bookT1Plain := by
        have : some bookT1Plain = some other := hj
        exact (Option.some.inj this).symm
      rw [h0] at hin
      have hf : inSeries tbl bookT1.Series bookT1Plain = false := rfl
      rw [hf] at hin
      cases hin
    | 1 => rfl
    | j + 2 =>
      have : (none : Option Book) = some other := hj
      cases this
  have hres := h _ hr ioOk 1 bookT1 rfl (by decide) hsole
  have hcode : findSeriesIndex tbl
      (RemoveBook tbl ioOk
        (AddBook tbl ioOk (AddBook tbl ioOk emptyCatalog bookT1Plain).1 bookT1).1
        bookT1.Author bookT1.Title).1.Series bookT1.Series = some 0 := rfl
  rw [hcode] at hres
  cases hres

/-- C4 (amended): for every catalog reachable from the empty one by store
mutations and every book `b` with non-empty series `s`, if `b` is the book that
the store finds under `(b.Author, b.Title)` and the member list of the series
stored under `s` consists of one entry, carrying the key of `b`, then after
`RemoveBook(b.Author, b.Title)` the series collection has no series named `s`. -/
theorem C4_sole_member_removes_series (tbl : Char → Char)
    (io : LibraryStorage → Option String) (d : LibraryStorage) (idx : Nat) (b : Book)
    (sr : BookSeries) (m : Book)
    (hreach : Reachable tbl d)
    (hfind : findBookIndex tbl d.Books b.Author b.Title = some idx)
    (hget : d.Books[idx]? = some b)
    (hS : b.Series ≠ "")
    (hsr : lookupSeries tbl d.Series b.Series = some sr)
    (hsole : sr.Books = [m])
    (hkey : memberMatches tbl b.Title b.Author m = true) :
    findSeriesIndex tbl (RemoveBook tbl io d b.Author b.Title).1.Series b.Series = none := by
  obtain ⟨k, hk, hkget⟩ := lookupSeries_eq_some tbl hsr
  have hnames := Reachable_names tbl d hreach
  have hrm : removeBookFromSeries tbl d.Series b.Series b.Title b.Author =
      d.Series.eraseIdx k := by
    unfold removeBookFromSeries
    rw [hk]
    simp only [hkget, hsole]
    simp [List.findIdx?_cons, hkey]
  unfold RemoveBook
  rw [hfind]
  simp only [hget]
  rw [if_pos hS, hrm]
  exact findSeriesIndex_eraseIdx_none tbl d.Series b.Series k hnames hk

/-- C4 (witness): removing `bookT1` from the catalog that holds only it. -/
theorem C4_sole_member_removes_series_witness :
    Reachable id (AddBook id ioOk emptyCatalog bookT1).1 ∧
      findSeriesIndex id
        (RemoveBook id ioOk (AddBook id ioOk emptyCatalog bookT1).1
          bookT1.Author bookT1.Title).1.Series bookT1.Series = none :=
  ⟨Reachable.addBook ioOk bookT1 Reachable.empty,
    C4_sole_member_removes_series id ioOk _ 0 bookT1
      { Name := "S", Books := [bookT1], Total := 1, Read := 0 } bookT1
      (Reachable.addBook ioOk bookT1 Reachable.empty) rfl rfl (by decide) rfl rfl rfl⟩

/-! ## `MarkAsRead` and the `Read` counter -/

theorem find?_to_findIdx? {α : Type} (p : α → Bool) :
    ∀ (l : List α) (m : α), l.find? p = some m →
      ∃ j, l.findIdx? p = some j ∧ l[j]? = some m
  | [], m, h => by simp at h
  | a :: l, m, h => by
    by_cases hp : p a = true
    · simp [List.find?_cons, hp] at h
      subst h
      exact ⟨0, by simp [List.findIdx?_cons, hp], by simp⟩
    · simp [List.find?_cons, hp] at h
      obtain ⟨j, hj, hm⟩ := find?_to_findIdx? p l m h
      exact ⟨j + 1, by simp [List.findIdx?_cons, hp, hj], by simpa using hm⟩

theorem MarkAsRead_lookup (tbl : Char → Char) (io : LibraryStorage → Option String)
    (d : LibraryStorage) (author title : String) (read : Bool) (idx : Nat) (b : Book)
    (sr : BookSeries) (m : Book)
    (hfind : findBookIndex tbl d.Books author title = some idx)
    (hget : d.Books[idx]? = some b) (hS : b.Series ≠ "")
    (hsr : lookupSeries tbl d.Series b.Series = some sr)
    (hm : sr.Books.find? (memberMatches tbl title author) = some m) :
    ∃ sr1, lookupSeries tbl (MarkAsRead tbl io d author title read).1.Series b.Series =
        some sr1 ∧
      sr1.Read =
        (if read && !m.Read then sr.Read + 1
         else if !read && m.Read then sr.Read - 1 else sr.Read) := by
  obtain ⟨k, hk, hkget⟩ := lookupSeries_eq_some tbl hsr
  obtain ⟨j, hj, hjget⟩ := find?_to_findIdx? _ _ _ hm
  unfold MarkAsRead
  rw [hfind]
  simp only [hget]
  rw [if_pos hS]
  unfold updateSeriesReadStatus
  rw [hk]
  simp only [hkget, hj, hjget]
  exact ⟨_, lookupSeries_set tbl _ _ k sr _ hk hkget rfl, rfl⟩

/-- C5 (as stated, refuted): the store holds `bookT1` (series `S`) and
`bookT1Other` (same key, series `S2`), both unread; `MarkAsRead` under that key
with `true` leaves the `Read` counter of `S2` at 0. -/
theorem C5_mark_read_counterexample :
    ¬ ∃ tbl : Char → Char, ∀ d : LibraryStorage, Reachable tbl d →
        ∀ (io : LibraryStorage → Option String) (i : Nat) (b : Book),
          d.Books[i]? = some b → b.Series ≠ "" →
          (b.Read = false →
            ReadCountMoves tbl d (MarkAsRead tbl io d b.Author b.Title true).1 b.Series 1) ∧
          (b.Read = true →
            ReadCountMoves tbl d (MarkAsRead tbl io d b.Author b.Title false).1 b.Series
              (-1)) ∧
          ReadCountMoves tbl d (MarkAsRead tbl io d b.Author b.Title b.Read).1 b.Series 0 := by
  rintro ⟨tbl, h⟩
  have hr : Reachable tbl
      (AddBook tbl ioOk (AddBook tbl ioOk emptyCatalog bookT1).1 bookT1Other).1 :=
    Reachable.addBook ioOk bookT1Other (Reachable.addBook ioOk bookT1 Reachable.empty)
  obtain ⟨sr, sr1, hsr, hsr1, hread⟩ :=
    (h _ hr ioOk 1 bookT1Other rfl (by decide)).1 rfl
  have hbefore : lookupSeries tbl
      (AddBook tbl ioOk (AddBook tbl ioOk emptyCatalog bookT1).1 bookT1Other).1.Series
      bookT1Other.Series =
        some { Name := "S2", Books := [bookT1Other], Total := 1, Read := 0 } := rfl
  have hafter : lookupSeries tbl
      (MarkAsRead tbl ioOk
        (AddBook tbl ioOk (AddBook tbl ioOk emptyCatalog bookT1).1 bookT1Other).1
        bookT1Other.Author bookT1Other.Title true).1.Series bookT1Other.Series =
        some { Name := "S2", Books := [bookT1Other], Total := 1, Read := 0 } := rfl
  rw [hbefore] at hsr
  rw [hafter] at hsr1
  cases hsr
  cases hsr1
  simp at hread

/-- C5 (amended): for every catalog reachable from the empty one by store
mutations and every `(author, title)` under which the store finds a book `b`
with non-empty series, if the series stored under the series of `b` has a first
member matching `(title, author)` and that member has the `Read` flag of `b`,
then `MarkAsRead(author, title, true)` on an unread `b` raises the `Read`
counter of that series by exactly 1, `MarkAsRead(author, title, false)` on a
read `b` lowers it by exactly 1, and `MarkAsRead` with the value the flag
already has leaves it unchanged. -/
theorem C5_mark_read_moves_counter (tbl : Char → Char)
    (io : LibraryStorage → Option String) (d : LibraryStorage) (author title : String)
    (idx : Nat) (b : Book) (sr : BookSeries) (m : Book)
    (_hreach : Reachable tbl d)
    (hfind : findBookIndex tbl d.Books author title = some idx)
    (hget : d.Books[idx]? = some b) (hS : b.Series ≠ "")
    (hsr : lookupSeries tbl d.Series b.Series = some sr)
    (hm : sr.Books.find? (memberMatches tbl title author) = some m)
    (hflag : m.Read = b.Read) :
    (b.Read = false →
      ReadCountMoves tbl d (MarkAsRead tbl io d author title true).1 b.Series 1) ∧
    (b.Read = true →
      ReadCountMoves tbl d (MarkAsRead tbl io d author title false).1 b.Series (-1)) ∧
    ReadCountMoves tbl d (MarkAsRead tbl io d author title b.Read).1 b.Series 0 := by
  refine ⟨?_, ?_, ?_⟩
  · intro hb
    obtain ⟨sr1, h1, h2⟩ :=
      MarkAsRead_lookup tbl io d author title true idx b sr m hfind hget hS hsr hm
    refine ⟨sr, sr1, hsr, h1, ?_⟩
    rw [h2, hflag, hb]
    simp
  · intro hb
    obtain ⟨sr1, h1, h2⟩ :=
      MarkAsRead_lookup tbl io d author title false idx b sr m hfind hget hS hsr hm
    refine ⟨sr, sr1, hsr, h1, ?_⟩
    rw [h2, hflag, hb]
    simp
    rfl
  · obtain ⟨sr1, h1, h2⟩ :=
      MarkAsRead_lookup tbl io d author title b.Read idx b sr m hfind hget hS hsr hm
    refine ⟨sr, sr1, hsr, h1, ?_⟩
    rw [h2, hflag]
    cases b.Read <;> simp

/-- C5 (witness): marking `bookT1` in the catalog that holds only it. -/
theorem C5_mark_read_moves_counter_witness :
    Reachable id (AddBook id ioOk emptyCatalog bookT1).1 ∧
      ReadCountMoves id (AddBook id ioOk emptyCatalog bookT1).1
        (MarkAsRead id ioOk (AddBook id ioOk emptyCatalog bookT1).1 "A" "T1" true).1
        bookT1.Series 1 :=
  ⟨Reachable.addBook ioOk bookT1 Reachable.empty,
    (C5_mark_read_moves_counter id ioOk (AddBook id ioOk emptyCatalog bookT1).1 "A" "T1" 0
      bookT1 { Name := "S", Books := [bookT1], Total := 1, Read := 0 } bookT1
      (Reachable.addBook ioOk bookT1 Reachable.empty)
      rfl rfl (by decide) rfl rfl rfl).1 rfl⟩

/-! ## The scenario of the specification -/

theorem scenarioEdit_series (tbl : Char → Char) (io : LibraryStorage → Option String)
    (newFields : Book) (h : newFields.Series = "") :
    (scenarioEdit tbl io newFields).Series =
      [{ Name := "S", Books := [{ bookT1 with Read := true }], Total := 1, Read := 1 }] := by
  obtain ⟨t, a, g, y, r, q, s, o⟩ := newFields
  simp only at h
  subst h
  rfl

/-- C6 (as stated, refuted): after the four steps, with new fields that only
clear the series, the series `S` does not have `total = 1` and `read = 0`. -/
theorem C6_scenario_counterexample :
    ¬ ∃ tbl : Char → Char, ∃ sr : BookSeries,
        lookupSeries tbl (scenarioEdit tbl ioOk editNoSeries).Series "S" = some sr ∧
          sr.Total = 1 ∧ sr.Read = 0 := by
  rintro ⟨tbl, sr, hsr, _, hread⟩
  rw [scenarioEdit_series tbl ioOk editNoSeries rfl] at hsr
  have hlook : lookupSeries tbl
      [{ Name := "S", Books := [{ bookT1 with Read := true }], Total := 1, Read := 1 }] "S" =
      some { Name := "S", Books := [{ bookT1 with Read := true }], Total := 1, Read := 1 } :=
    rfl
  rw [hlook] at hsr
  cases hsr
  simp at hread

/-- C6 (amended): starting from the empty catalog, after `AddBook` of A/T1 and
of B/T2 (both in series `S`), `MarkAsRead(A, T1, true)` and `EditBook(B, T2,
newFields)` with an empty series in `newFields`, the series collection holds
the series `S` with `total = 1` and `read = 1`. -/
theorem C6_scenario_total_one_read_one (tbl : Char → Char)
    (io : LibraryStorage → Option String) (newFields : Book)
    (h : newFields.Series = "") :
    ∃ sr : BookSeries,
      lookupSeries tbl (scenarioEdit tbl io newFields).Series "S" = some sr ∧
        sr.Total = 1 ∧ sr.Read = 1 := by
  rw [scenarioEdit_series tbl io newFields h]
  exact ⟨_, rfl, rfl, rfl⟩

/-- C6 (witness): the scenario with `editNoSeries` as new fields. -/
theorem C6_scenario_total_one_read_one_witness :
    ∃ sr : BookSeries,
      lookupSeries id (scenarioEdit id ioOk editNoSeries).Series "S" = some sr ∧
        sr.Total = 1 ∧ sr.Read = 1 :=
  C6_scenario_total_one_read_one id ioOk editNoSeries rfl

/-! ## `EditBook` on the book sequence -/

theorem editFields_Read (oldBook newBook : Book) :
    (editFields oldBook newBook).Read = oldBook.Read := by
  simp only [editFields]
  split_ifs <;> rfl

theorem editFields_Quotes (oldBook newBook : Book) :
    (editFields oldBook newBook).Quotes = oldBook.Quotes := by
  simp only [editFields]
  split_ifs <;> rfl

theorem editFields_Author (oldBook newBook : Book) :
    (editFields oldBook newBook).Author =
      if newBook.Author ≠ "" then newBook.Author else oldBook.Author := by
  simp only [editFields]
  split_ifs <;> rfl

theorem editFields_Title (oldBook newBook : Book) :
    (editFields oldBook newBook).Title =
      if newBook.Title ≠ "" then newBook.Title else oldBook.Title := by
  simp only [editFields]
  split_ifs <;> rfl

theorem editFields_Genre (oldBook newBook : Book) :
    (editFields oldBook newBook).Genre =
      if newBook.Genre ≠ "" then newBook.Genre else oldBook.Genre := by
  simp only [editFields]
  split_ifs <;> rfl

theorem editFields_Series (oldBook newBook : Book) :
    (editFields oldBook newBook).Series = newBook.Series := by
  simp only [editFields]
  by_cases h : newBook.Series = ""
  · simp [h]
  · simp [h]

theorem EditBook_books (tbl : Char → Char) (io : LibraryStorage → Option String)
    (d : LibraryStorage) (oldAuthor oldTitle : String) (newBook : Book) (idx : Nat)
    (oldBook : Book) (hfind : findBookIndex tbl d.Books oldAuthor oldTitle = some idx)
    (hget : d.Books[idx]? = some oldBook) :
    (EditBook tbl io d oldAuthor oldTitle newBook).1.Books =
      d.Books.set idx (editFields oldBook newBook) := by
  unfold EditBook
  rw [hfind]
  simp only [hget]

theorem getElem?_set_of_some {α : Type} (l : List α) (i : Nat) (x y : α)
    (h : l[i]? = some x) : (l.set i y)[i]? = some y := by
  rcases List.getElem?_eq_some_iff.mp h with ⟨hlt, _⟩
  simp [List.getElem?_set, hlt]

/-- C7 (as stated, refuted): editing `bookT1` (series `S`) with new fields whose
series is empty leaves the book with an empty series, not with `S`. -/
theorem C7_edit_fields_counterexample :
    ¬ ∃ tbl : Char → Char, ∀ (d : LibraryStorage) (io : LibraryStorage → Option String)
        (oldAuthor oldTitle : String) (newBook : Book) (idx : Nat) (oldBook : Book),
        findBookIndex tbl d.Books oldAuthor oldTitle = some idx →
        d.Books[idx]? = some oldBook →
        ∃ b, (EditBook tbl io d oldAuthor oldTitle newBook).1.Books[idx]? = some b ∧
          replacedIfNonEmpty newBook.Author oldBook.Author b.Author ∧
          replacedIfNonEmpty newBook.Title oldBook.Title b.Title ∧
          replacedIfNonEmpty newBook.Genre oldBook.Genre b.Genre ∧
          replacedIfNonEmpty newBook.Series oldBook.Series b.Series := by
  rintro ⟨tbl, h⟩
  obtain ⟨b, hb, _, _, _, hseries⟩ :=
    h (AddBook tbl ioOk emptyCatalog bookT1).1 ioOk "A" "T1" editNoSeries 0 bookT1 rfl rfl
  have hcode : (EditBook tbl ioOk (AddBook tbl ioOk emptyCatalog bookT1).1 "A" "T1"
      editNoSeries).1.Books[0]? =
      some { bookT1 with Year := 2001, Series := "", SeriesOrder := 0 } := rfl
  rw [hcode] at hb
  cases hb
  unfold replacedIfNonEmpty at hseries
  revert hseries
  decide

/-- C7 (amended): for every catalog, every existing book `(oldAuthor, oldTitle)`
and every `newFields`, after `EditBook` each of the book's author, title and
genre equals the new value if that value is non-empty and its previous value
otherwise, and the book's series equals the new series value in either case (an
empty new series clears the series). -/
theorem C7_edit_fields (tbl : Char → Char) (io : LibraryStorage → Option String)
    (d : LibraryStorage) (oldAuthor oldTitle : String) (newBook : Book) (idx : Nat)
    (oldBook : Book) (hfind : findBookIndex tbl d.Books oldAuthor oldTitle = some idx)
    (hget : d.Books[idx]? = some oldBook) :
    ∃ b, (EditBook tbl io d oldAuthor oldTitle newBook).1.Books[idx]? = some b ∧
      replacedIfNonEmpty newBook.Author oldBook.Author b.Author ∧
      replacedIfNonEmpty newBook.Title oldBook.Title b.Title ∧
      replacedIfNonEmpty newBook.Genre oldBook.Genre b.Genre ∧
      b.Series = newBook.Series := by
  refine ⟨editFields oldBook newBook, ?_, editFields_Author _ _, editFields_Title _ _,
    editFields_Genre _ _, editFields_Series _ _⟩
  rw [EditBook_books tbl io d oldAuthor oldTitle newBook idx oldBook hfind hget]
  exact getElem?_set_of_some _ _ _ _ hget

/-- C7 (witness): editing `bookT1` with `editNoSeries`. -/
theorem C7_edit_fields_witness :
    ∃ b, (EditBook id ioOk (AddBook id ioOk emptyCatalog bookT1).1 "A" "T1"
        editNoSeries).1.Books[0]? = some b ∧
      replacedIfNonEmpty editNoSeries.Author bookT1.Author b.Author ∧
      replacedIfNonEmpty editNoSeries.Title bookT1.Title b.Title ∧
      replacedIfNonEmpty editNoSeries.Genre bookT1.Genre b.Genre ∧
      b.Series = editNoSeries.Series :=
  C7_edit_fields id ioOk (AddBook id ioOk emptyCatalog bookT1).1 "A" "T1" editNoSeries 0
    bookT1 rfl rfl

/-- C8 (the code at the failing input): editing `bookT1` with new fields that
only name the series `S2` puts those new fields, with their empty author and
title, into the member list of `S2`, while the book sequence holds the book with
its author and title kept. -/
theorem C8_edit_stores_new_fields_in_series (tbl : Char → Char) :
    (EditBook tbl ioOk (AddBook tbl ioOk emptyCatalog bookT1).1 "A" "T1" editToS2).1 =
      { Books := [{ bookT1 with Year := 0, Series := "S2", SeriesOrder := 0 }]
        Series := [{ Name := "S2", Books := [editToS2], Total := 1, Read := 0 }] } :=
  rfl

/-! ## What `EditBook` leaves alone -/

theorem map_set_same {α β : Type} (f : α → β) :
    ∀ (l : List α) (i : Nat) (x y : α), l[i]? = some x → f y = f x →
      (l.set i y).map f = l.map f
  | [], i, x, y, h, _ => by simp at h
  | a :: l, 0, x, y, h, hf => by
    simp at h
    subst h
    simp [hf]
  | a :: l, i + 1, x, y, h, hf => by
    simp at h
    simp [map_set_same f l i x y h hf]

/-- C9: for every catalog, every `(oldAuthor, oldTitle)` and every `newFields`,
`EditBook` leaves the length of the book sequence, the `Read` flag and the
`Quotes` of the book at every position, and the whole book at every position
other than the one it finds, unchanged. -/
theorem C9_edit_frame (tbl : Char → Char) (io : LibraryStorage → Option String)
    (d : LibraryStorage) (oldAuthor oldTitle : String) (newBook : Book) :
    (EditBook tbl io d oldAuthor oldTitle newBook).1.Books.length = d.Books.length ∧
    (EditBook tbl io d oldAuthor oldTitle newBook).1.Books.map (fun b => b.Read) =
      d.Books.map (fun b => b.Read) ∧
    (EditBook tbl io d oldAuthor oldTitle newBook).1.Books.map (fun b => b.Quotes) =
      d.Books.map (fun b => b.Quotes) ∧
    ∀ i : Nat, findBookIndex tbl d.Books oldAuthor oldTitle ≠ some i →
      (EditBook tbl io d oldAuthor oldTitle newBook).1.Books[i]? = d.Books[i]? := by
  cases hfind : findBookIndex tbl d.Books oldAuthor oldTitle with
  | none =>
    have hsame : (EditBook tbl io d oldAuthor oldTitle newBook).1 = d := by
      unfold EditBook
      rw [hfind]
    rw [hsame]
    exact ⟨rfl, rfl, rfl, fun _ _ => rfl⟩
  | some idx =>
    obtain ⟨oldBook, hget, _⟩ := findIdx?_some_spec hfind
    rw [EditBook_books tbl io d oldAuthor oldTitle newBook idx oldBook hfind hget]
    refine ⟨by simp, ?_, ?_, ?_⟩
    · exact map_set_same _ _ _ oldBook _ hget (editFields_Read _ _)
    · exact map_set_same _ _ _ oldBook _ hget (editFields_Quotes _ _)
    · intro i hi
      have hne : idx ≠ i := fun e => hi (by rw [e])
      simp [List.getElem?_set, hne]

/-- C10: for every catalog and every book `b`, if `b.Author` or `b.Title` is
empty then `AddBook b` leaves the catalog unchanged and reports no error;
otherwise the book sequence after `AddBook b` is the previous sequence followed
by `b`, and `GetAllBooks` returns that sequence. -/
theorem C10_add_book_appends (tbl : Char → Char) (io : LibraryStorage → Option String)
    (d : LibraryStorage) (book : Book) :
    (book.Author = "" ∨ book.Title = "" → AddBook tbl io d book = (d, none)) ∧
    (¬ (book.Author = "" ∨ book.Title = "") →
      (AddBook tbl io d book).1.Books = d.Books ++ [book] ∧
        GetAllBooks (AddBook tbl io d book).1 = d.Books ++ [book]) := by
  constructor
  · intro h
    unfold AddBook
    rw [if_pos h]
  · intro h
    unfold AddBook GetAllBooks
    rw [if_neg h]
    exact ⟨rfl, rfl⟩

/-- C10 (witness): a book without an author is ignored, `bookT2` is appended
after `bookT1`. -/
theorem C10_add_book_appends_witness :
    AddBook id ioOk (AddBook id ioOk emptyCatalog bookT1).1 { bookT2 with Author := "" } =
        ((AddBook id ioOk emptyCatalog bookT1).1, none) ∧
      GetAllBooks (AddBook id ioOk (AddBook id ioOk emptyCatalog bookT1).1 bookT2).1 =
        [bookT1, bookT2] :=
  ⟨(C10_add_book_appends id ioOk (AddBook id ioOk emptyCatalog bookT1).1
      { bookT2 with Author := "" }).1 (Or.inl rfl),
    ((C10_add_book_appends id ioOk (AddBook id ioOk emptyCatalog bookT1).1 bookT2).2
      (by decide)).2⟩

/-! ## `MarkAsRead` twice -/

theorem updateSeriesReadStatus_of_found (tbl : Char → Char) (series : List BookSeries)
    (seriesName title author : String) (read : Bool) (k j : Nat) (sr : BookSeries)
    (m : Book) (hk : findSeriesIndex tbl series seriesName = some k)
    (hkget : series[k]? = some sr)
    (hj : sr.Books.findIdx? (memberMatches tbl title author) = some j)
    (hjget : sr.Books[j]? = some m) :
    updateSeriesReadStatus tbl series seriesName title author read =
      series.set k
        { sr with
          Read :=
            if read && !m.Read then sr.Read + 1
            else if !read && m.Read then sr.Read - 1
            else sr.Read
          Books := sr.Books.set j { m with Read := read } } := by
  unfold updateSeriesReadStatus
  rw [hk]
  simp only [hkget, hj, hjget]

theorem findSeriesIndex_set_same_name (tbl : Char → Char) (series : List BookSeries)
    (name : String) (k : Nat) (sr sr1 : BookSeries) (hkget : series[k]? = some sr)
    (hname : sr1.Name = sr.Name) :
    findSeriesIndex tbl (series.set k sr1) name = findSeriesIndex tbl series name := by
  unfold findSeriesIndex
  exact findIdx?_set_same _ series k sr sr1 hkget (by simp [hname])

theorem findMember_set_read (tbl : Char → Char) (books : List Book) (title author : String)
    (j : Nat) (m : Book) (read : Bool) (hjget : books[j]? = some m) :
    (books.set j { m with Read := read }).findIdx? (memberMatches tbl title author) =
      books.findIdx? (memberMatches tbl title author) :=
  findIdx?_set_same _ books j m { m with Read := read } hjget rfl

theorem findBookIndex_set_read (tbl : Char → Char) (books : List Book) (author title : String)
    (idx : Nat) (b : Book) (read : Bool) (hget : books[idx]? = some b) :
    findBookIndex tbl (books.set idx { b with Read := read }) author title =
      findBookIndex tbl books author title := by
  unfold findBookIndex
  exact findIdx?_set_same _ books idx b { b with Read := read } hget rfl

theorem updateSeriesReadStatus_idem (tbl : Char → Char) (series : List BookSeries)
    (seriesName title author : String) (read : Bool) :
    updateSeriesReadStatus tbl
        (updateSeriesReadStatus tbl series seriesName title author read)
        seriesName title author read =
      updateSeriesReadStatus tbl series seriesName title author read := by
  cases hk : findSeriesIndex tbl series seriesName with
  | none =>
    have h1 : updateSeriesReadStatus tbl series seriesName title author read = series := by
      unfold updateSeriesReadStatus
      rw [hk]
    rw [h1, h1]
  | some k =>
    obtain ⟨sr, hkget, _⟩ := findIdx?_some_spec hk
    cases hj : sr.Books.findIdx? (memberMatches tbl title author) with
    | none =>
      have h1 : updateSeriesReadStatus tbl series seriesName title author read = series := by
        unfold updateSeriesReadStatus
        rw [hk]
        simp only [hkget, hj]
      rw [h1, h1]
    | some j =>
      obtain ⟨m, hjget, _⟩ := findIdx?_some_spec hj
      rw [updateSeriesReadStatus_of_found tbl series seriesName title author read k j sr m
        hk hkget hj hjget]
      have hk1 : findSeriesIndex tbl
          (series.set k
            { sr with
              Read :=
                if read && !m.Read then sr.Read + 1
                else if !read && m.Read then sr.Read - 1
                else sr.Read
              Books := sr.Books.set j { m with Read := read } }) seriesName = some k := by
        refine (findSeriesIndex_set_same_name tbl series seriesName k sr _ hkget ?_).trans hk
        rfl
      have hj1 : (sr.Books.set j { m with Read := read }).findIdx?
          (memberMatches tbl title author) = some j := by
        rw [findMember_set_read tbl sr.Books title author j m read hjget]
        exact hj
      rw [updateSeriesReadStatus_of_found tbl _ seriesName title author read k j _
        { m with Read := read } hk1 (getElem?_set_of_some _ _ _ _ hkget) hj1
        (getElem?_set_of_some _ _ _ _ hjget)]
      cases read <;> simp

/-- C11: for every catalog, author, title and boolean `r`, calling
`MarkAsRead(author, title, r)` a second time leaves the catalog the first call
produced (book sequence and series collection, so every `Read` counter too)
unchanged. -/
theorem C11_mark_as_read_idempotent (tbl : Char → Char)
    (io1 io2 : LibraryStorage → Option String) (d : LibraryStorage) (author title : String)
    (r : Bool) :
    (MarkAsRead tbl io2 (MarkAsRead tbl io1 d author title r).1 author title r).1 =
      (MarkAsRead tbl io1 d author title r).1 := by
  cases hfind : findBookIndex tbl d.Books author title with
  | none =>
    have h1 : ∀ io, (MarkAsRead tbl io d author title r).1 = d := by
      intro io
      unfold MarkAsRead
      rw [hfind]
    rw [h1 io1, h1 io2]
  | some idx =>
    obtain ⟨b, hget, _⟩ := findIdx?_some_spec hfind
    have h1 : (MarkAsRead tbl io1 d author title r).1 =
        { Books := d.Books.set idx { b with Read := r }
          Series :=
            if b.Series ≠ "" then updateSeriesReadStatus tbl d.Series b.Series title author r
            else d.Series } := by
      unfold MarkAsRead
      rw [hfind]
      simp only [hget]
    rw [h1]
    have hfind1 : findBookIndex tbl (d.Books.set idx { b with Read := r }) author title =
        some idx := by
      rw [findBookIndex_set_read tbl d.Books author title idx b r hget]
      exact hfind
    unfold MarkAsRead
    simp only [hfind1, getElem?_set_of_some _ _ _ _ hget, List.set_set]
    by_cases hS : b.Series = ""
    · simp [hS]
    · simp [hS, updateSeriesReadStatus_idem]

/-! ## What `GetStatistics` computes -/

theorem foldl_countBook (books : List Book) :
    ∀ st : Statistics,
      (books.foldl countBook st).TotalBooks = st.TotalBooks ∧
      (books.foldl countBook st).ReadBooks =
        st.ReadBooks + ((books.countP (fun b => b.Read) : Nat) : Int) ∧
      (books.foldl countBook st).ReadPercentage = st.ReadPercentage ∧
      (books.foldl countBook st).BooksByGenre =
        (books.map (fun b => b.Genre)).foldl mapIncr st.BooksByGenre ∧
      (books.foldl countBook st).BooksByAuthor =
        (books.map (fun b => b.Author)).foldl mapIncr st.BooksByAuthor ∧
      (books.foldl countBook st).TotalSeries = st.TotalSeries ∧
      (books.foldl countBook st).SeriesStats = st.SeriesStats := by
  induction books with
  | nil => intro st; simp
  | cons b bs ih =>
    intro st
    obtain ⟨h1, h2, h3, h4, h5, h6, h7⟩ := ih (countBook st b)
    simp only [List.foldl_cons, List.map_cons]
    refine ⟨h1, ?_, h3, h4, h5, h6, h7⟩
    rw [h2]
    cases hb : b.Read
    · simp [countBook, hb, List.countP_cons]
    · simp [countBook, hb, List.countP_cons]
      omega

theorem foldl_seriesStat (series : List BookSeries) :
    ∀ st : Statistics,
      (series.foldl
        (fun st sr => { st with SeriesStats := st.SeriesStats ++ [seriesStat sr] }) st) =
        { st with SeriesStats := st.SeriesStats ++ series.map seriesStat } := by
  induction series with
  | nil => intro st; simp
  | cons sr rest ih =>
    intro st
    simp only [List.foldl_cons, List.map_cons]
    rw [ih]
    simp

theorem GetStatistics_TotalBooks (d : LibraryStorage) :
    (GetStatistics d).TotalBooks = (d.Books.length : Int) := by
  unfold GetStatistics
  simp only [foldl_seriesStat]
  split <;> simp [(foldl_countBook d.Books _).1]

theorem GetStatistics_ReadBooks (d : LibraryStorage) :
    (GetStatistics d).ReadBooks = ((d.Books.countP (fun b => b.Read) : Nat) : Int) := by
  unfold GetStatistics
  simp only [foldl_seriesStat]
  split <;> simp [(foldl_countBook d.Books _).2.1]

theorem GetStatistics_ReadPercentage_zero (d : LibraryStorage)
    (h : (GetStatistics d).TotalBooks = 0) : (GetStatistics d).ReadPercentage = 0 := by
  have hlen : (d.Books.length : Int) = 0 := by
    rw [← GetStatistics_TotalBooks]
    exact h
  unfold GetStatistics
  simp only [foldl_seriesStat]
  rw [if_neg (by rw [(foldl_countBook d.Books _).1]; simp [hlen])]
  simp [(foldl_countBook d.Books _).2.2.1]

theorem GetStatistics_BooksByGenre (d : LibraryStorage) :
    (GetStatistics d).BooksByGenre = (d.Books.map (fun b => b.Genre)).foldl mapIncr [] := by
  unfold GetStatistics
  simp only [foldl_seriesStat]
  split <;> simp [(foldl_countBook d.Books _).2.2.2.1]

theorem GetStatistics_BooksByAuthor (d : LibraryStorage) :
    (GetStatistics d).BooksByAuthor = (d.Books.map (fun b => b.Author)).foldl mapIncr [] := by
  unfold GetStatistics
  simp only [foldl_seriesStat]
  split <;> simp [(foldl_countBook d.Books _).2.2.2.2.1]

theorem GetStatistics_SeriesStats (d : LibraryStorage) :
    (GetStatistics d).SeriesStats = d.Series.map seriesStat := by
  unfold GetStatistics
  simp only [foldl_seriesStat]
  split <;> simp [(foldl_countBook d.Books _).2.2.2.2.2.2]

theorem seriesStat_TotalBooks (sr : BookSeries) : (seriesStat sr).TotalBooks = sr.Total := by
  unfold seriesStat
  simp only
  split <;> rfl

theorem seriesStat_ReadBooks (sr : BookSeries) : (seriesStat sr).ReadBooks = sr.Read := by
  unfold seriesStat
  simp only
  split <;> rfl

theorem Reachable_counted (tbl : Char → Char) (d : LibraryStorage) (h : Reachable tbl d) :
    SeriesCounted d.Series := by
  induction h with
  | empty => intro sr hsr; simp [emptyCatalog] at hsr
  | addBook io book _ ih => exact AddBook_counted tbl io _ book ih
  | editBook io a t nb _ ih => exact EditBook_counted tbl io _ a t nb ih
  | removeBook io a t _ ih => exact RemoveBook_counted tbl io _ a t ih
  | addQuote io a t q _ ih => rw [AddQuote_series]; exact ih
  | markAsRead io a t r _ ih => exact MarkAsRead_counted tbl io _ a t r ih

/-- C12: in every catalog reachable from the empty one by store mutations,
`GetStatistics` returns `ReadBooks <= TotalBooks`, returns `ReadPercentage = 0`
whenever `TotalBooks = 0`, and every entry of `SeriesStats` has
`0 <= ReadBooks <= TotalBooks`. -/
theorem C12_statistics_bounds (tbl : Char → Char) (d : LibraryStorage)
    (h : Reachable tbl d) :
    (GetStatistics d).ReadBooks ≤ (GetStatistics d).TotalBooks ∧
    ((GetStatistics d).TotalBooks = 0 → (GetStatistics d).ReadPercentage = 0) ∧
    ∀ st ∈ (GetStatistics d).SeriesStats, 0 ≤ st.ReadBooks ∧ st.ReadBooks ≤ st.TotalBooks := by
  refine ⟨?_, GetStatistics_ReadPercentage_zero d, ?_⟩
  · rw [GetStatistics_ReadBooks, GetStatistics_TotalBooks]
    exact_mod_cast List.countP_le_length (fun b : Book => b.Read)
  · intro st hst
    rw [GetStatistics_SeriesStats] at hst
    obtain ⟨sr, hsr, rfl⟩ := List.mem_map.mp hst
    obtain ⟨h1, h2⟩ := Reachable_counted tbl d h sr hsr
    rw [seriesStat_TotalBooks, seriesStat_ReadBooks, h1, h2]
    constructor
    · exact_mod_cast Nat.zero_le _
    · exact_mod_cast List.countP_le_length (fun b : Book => b.Read)

/-- C12 (witness): the statistics of the catalog that holds `bookT1`. -/
theorem C12_statistics_bounds_witness :
    Reachable id (AddBook id ioOk emptyCatalog bookT1).1 ∧
      (GetStatistics (AddBook id ioOk emptyCatalog bookT1).1).ReadBooks ≤
        (GetStatistics (AddBook id ioOk emptyCatalog bookT1).1).TotalBooks :=
  ⟨Reachable.addBook ioOk bookT1 Reachable.empty,
    (C12_statistics_bounds id _ (Reachable.addBook ioOk bookT1 Reachable.empty)).1⟩

/-! ## The maps of `GetStatistics` -/

theorem mapGet_mapIncr (k g : String) :
    ∀ m : List (String × Int),
      mapGet (mapIncr m k) g =
        if k = g then some ((mapGet m g).getD 0 + 1) else mapGet m g
  | [] => by
    by_cases hkg : k = g <;> simp [mapIncr, mapGet, hkg]
  | (k1, v) :: rest => by
    have ih := mapGet_mapIncr k g rest
    by_cases h1 : k1 = k
    · subst h1
      by_cases hkg : k1 = g <;> simp [mapIncr, mapGet, hkg]
    · by_cases h2 : k1 = g
      · subst h2
        have hne : ¬ k = k1 := fun e => h1 e.symm
        simp [mapIncr, mapGet, h1, hne]
      · simp [mapIncr, mapGet, h1, h2, ih]

theorem mapGet_foldl (g : String) :
    ∀ (keys : List String) (m : List (String × Int)),
      mapGet (keys.foldl mapIncr m) g =
        if keys.count g = 0 then mapGet m g
        else some ((mapGet m g).getD 0 + (keys.count g : Nat))
  | [], m => by simp
  | k :: keys, m => by
    rw [List.foldl_cons, mapGet_foldl g keys (mapIncr m k), mapGet_mapIncr]
    by_cases hkg : k = g
    · subst hkg
      by_cases hc : List.count k keys = 0
      · simp [hc]
      · simp [hc]
        omega
    · have hne : (k == g) = false := by simpa using hkg
      simp [hkg, List.count_cons, hne]

theorem mapSum_mapIncr (k : String) :
    ∀ m : List (String × Int), mapSum (mapIncr m k) = mapSum m + 1
  | [] => by simp [mapIncr, mapSum]
  | (k1, v) :: rest => by
    have ih := mapSum_mapIncr k rest
    unfold mapSum at ih ⊢
    by_cases h1 : k1 = k
    · simp [mapIncr, h1]
      omega
    · simp [mapIncr, h1, ih]
      omega

theorem mapSum_foldl :
    ∀ (keys : List String) (m : List (String × Int)),
      mapSum (keys.foldl mapIncr m) = mapSum m + (keys.length : Nat)
  | [], m => by simp
  | k :: keys, m => by
    rw [List.foldl_cons, mapSum_foldl keys (mapIncr m k), mapSum_mapIncr]
    simp
    omega

theorem count_map_eq_countP {α : Type} (f : α → String) (g : String) :
    ∀ l : List α, (l.map f).count g = l.countP (fun x => decide (f x = g))
  | [] => by simp
  | a :: l => by
    have ih := count_map_eq_countP f g l
    by_cases h : f a = g
    · simp [List.count_cons, List.countP_cons, h, ih]
    · have hne : (f a == g) = false := by simpa using h
      simp [List.count_cons, List.countP_cons, h, hne, ih]

theorem mapGet_counts {α : Type} (f : α → String) (l : List α) (g : String) :
    (mapGet ((l.map f).foldl mapIncr []) g ≠ none ↔ ∃ x ∈ l, f x = g) ∧
    ∀ n : Int, mapGet ((l.map f).foldl mapIncr []) g = some n →
      n = ((l.countP (fun x => decide (f x = g)) : Nat) : Int) := by
  rw [mapGet_foldl, count_map_eq_countP]
  by_cases hc : l.countP (fun x => decide (f x = g)) = 0
  · rw [if_pos hc]
    constructor
    · constructor
      · intro h
        exact absurd rfl h
      · rintro ⟨x, hx, hfx⟩
        rw [List.countP_eq_zero] at hc
        have := hc x hx
        simp [hfx] at this
    · intro n hn
      cases hn
  · rw [if_neg hc]
    constructor
    · constructor
      · intro _
        have hpos : 0 < l.countP (fun x => decide (f x = g)) := Nat.pos_of_ne_zero hc
        obtain ⟨x, hx, hfx⟩ := List.countP_pos_iff.mp hpos
        exact ⟨x, hx, by simpa using hfx⟩
      · intro _ h
        cases h
    · intro n hn
      have : (mapGet [] g).getD 0 = 0 := rfl
      rw [this] at hn
      simp at hn
      omega

/-- C13: for every catalog, `GetStatistics` returns `TotalBooks` equal to the
length of the book sequence and `ReadBooks` equal to the number of books with
`Read` set; for every string `g` the entry `BooksByGenre[g]` is present exactly
when some book has genre `g`, and then equals the number of books with that
genre (likewise `BooksByAuthor` for authors); the genre counts and the author
counts each sum to `TotalBooks`. -/
theorem C13_statistics_counts (d : LibraryStorage) :
    (GetStatistics d).TotalBooks = (d.Books.length : Int) ∧
    (GetStatistics d).ReadBooks = ((d.Books.countP (fun b => b.Read) : Nat) : Int) ∧
    (∀ g : String,
      (mapGet (GetStatistics d).BooksByGenre g ≠ none ↔ ∃ b ∈ d.Books, b.Genre = g) ∧
      ∀ n : Int, mapGet (GetStatistics d).BooksByGenre g = some n →
        n = ((d.Books.countP (fun b => decide (b.Genre = g)) : Nat) : Int)) ∧
    (∀ a : String,
      (mapGet (GetStatistics d).BooksByAuthor a ≠ none ↔ ∃ b ∈ d.Books, b.Author = a) ∧
      ∀ n : Int, mapGet (GetStatistics d).BooksByAuthor a = some n →
        n = ((d.Books.countP (fun b => decide (b.Author = a)) : Nat) : Int)) ∧
    mapSum (GetStatistics d).BooksByGenre = (GetStatistics d).TotalBooks ∧
    mapSum (GetStatistics d).BooksByAuthor = (GetStatistics d).TotalBooks := by
  refine ⟨GetStatistics_TotalBooks d, GetStatistics_ReadBooks d, ?_, ?_, ?_, ?_⟩
  · intro g
    rw [GetStatistics_BooksByGenre]
    exact mapGet_counts (fun b : Book => b.Genre) d.Books g
  · intro a
    rw [GetStatistics_BooksByAuthor]
    exact mapGet_counts (fun b : Book => b.Author) d.Books a
  · rw [GetStatistics_BooksByGenre, GetStatistics_TotalBooks, mapSum_foldl]
    simp [mapSum]
  · rw [GetStatistics_BooksByAuthor, GetStatistics_TotalBooks, mapSum_foldl]
    simp [mapSum]

/-! ## Quotes -/

theorem GetQuotes_eq_some (tbl : Char → Char) (d : LibraryStorage) (author title : String)
    (qs : List String) (h : GetQuotes tbl d author title = some qs) :
    ∃ idx b, findBookIndex tbl d.Books author title = some idx ∧ d.Books[idx]? = some b ∧
      b.Quotes = qs := by
  unfold GetQuotes at h
  split at h
  · cases h
  · rename_i idx hidx
    obtain ⟨b, hb, _⟩ := findIdx?_some_spec hidx
    rw [hb] at h
    simp at h
    exact ⟨idx, b, hidx, hb, h⟩

theorem AddQuote_GetQuotes (tbl : Char → Char) (io : LibraryStorage → Option String)
    (d : LibraryStorage) (author title quote : String) (qs : List String)
    (h : GetQuotes tbl d author title = some qs) :
    GetQuotes tbl (AddQuote tbl io d author title quote).1 author title =
      some (qs ++ [quote]) := by
  obtain ⟨idx, b, hfind, hget, hq⟩ := GetQuotes_eq_some tbl d author title qs h
  subst hq
  have h1 : (AddQuote tbl io d author title quote).1 =
      { d with Books := d.Books.set idx { b with Quotes := b.Quotes ++ [quote] } } := by
    unfold AddQuote
    rw [hfind]
    simp only [hget]
  have hfind1 : findBookIndex tbl
      (d.Books.set idx { b with Quotes := b.Quotes ++ [quote] }) author title = some idx := by
    unfold findBookIndex at hfind ⊢
    exact (findIdx?_set_same (bookMatches tbl author title) d.Books idx b
      { b with Quotes := b.Quotes ++ [quote] } hget rfl).trans hfind
  rw [h1]
  unfold GetQuotes
  simp only [hfind1, getElem?_set_of_some _ _ _ _ hget, Option.map_some']

/-- C14 (as stated, refuted): after `AddBook` of `bookT1` twice and one
`AddQuote`, the catalog holds two books with the key `A`/`T1`, the first with
the quote `x` and the second without quotes. The second is a matching book with
quote sequence `[]`, yet after two more `AddQuote` calls `GetQuotes` returns
`x`, `q1`, `q2`, the quotes of the first. -/
theorem C14_add_quote_twice_counterexample :
    ¬ ∃ tbl : Char → Char, ∀ d : LibraryStorage, Reachable tbl d →
        ∀ (io1 io2 : LibraryStorage → Option String) (author title q1 q2 : String)
          (qs : List String),
          HoldsBookWithQuotes tbl d author title qs →
          GetQuotes tbl
              (AddQuote tbl io2 (AddQuote tbl io1 d author title q1).1 author title q2).1
              author title = some (qs ++ [q1, q2]) := by
  rintro ⟨tbl, h⟩
  have hr : Reachable tbl
      (AddQuote tbl ioOk
        (AddBook tbl ioOk (AddBook tbl ioOk emptyCatalog bookT1).1 bookT1).1
        "A" "T1" "x").1 :=
    Reachable.addQuote ioOk "A" "T1" "x"
      (Reachable.addBook ioOk bookT1 (Reachable.addBook ioOk bookT1 Reachable.empty))
  have hclaim := h _ hr ioOk ioOk "A" "T1" "q1" "q2" [] ⟨1, bookT1, rfl, rfl, rfl⟩
  have hcode : GetQuotes tbl
      (AddQuote tbl ioOk
        (AddQuote tbl ioOk
          (AddQuote tbl ioOk
            (AddBook tbl ioOk (AddBook tbl ioOk emptyCatalog bookT1).1 bookT1).1
            "A" "T1" "x").1 "A" "T1" "q1").1 "A" "T1" "q2").1 "A" "T1" =
      some ["x", "q1", "q2"] := rfl
  rw [hcode] at hclaim
  simp at hclaim

/-- C14 (amended): for every catalog in which the store finds under
`(author, title)` a book with quote sequence `qs` (the first book of the
sequence matching author and title), and all strings `q1`, `q2`: after
`AddQuote(author, title, q1)` followed by `AddQuote(author, title, q2)`,
`GetQuotes(author, title)` returns found with `qs` followed by `q1` then `q2`. -/
theorem C14_add_quote_twice (tbl : Char → Char) (io1 io2 : LibraryStorage → Option String)
    (d : LibraryStorage) (author title q1 q2 : String) (qs : List String)
    (h : GetQuotes tbl d author title = some qs) :
    GetQuotes tbl
        (AddQuote tbl io2 (AddQuote tbl io1 d author title q1).1 author title q2).1
        author title = some (qs ++ [q1, q2]) := by
  have h1 := AddQuote_GetQuotes tbl io1 d author title q1 qs h
  have h2 := AddQuote_GetQuotes tbl io2 _ author title q2 _ h1
  rw [h2]
  simp

/-- C14 (witness): two quotes added to `bookT1`. -/
theorem C14_add_quote_twice_witness :
    GetQuotes id (AddBook id ioOk emptyCatalog bookT1).1 "A" "T1" = some [] ∧
      GetQuotes id
        (AddQuote id ioOk
          (AddQuote id ioOk (AddBook id ioOk emptyCatalog bookT1).1 "A" "T1" "first").1
          "A" "T1" "second").1 "A" "T1" = some ([] ++ ["first", "second"]) :=
  ⟨rfl, C14_add_quote_twice id ioOk ioOk _ "A" "T1" "first" "second" [] rfl⟩

/-! ## Lookup of a book -/

theorem addBooks_mem (tbl : Char → Char) (io : LibraryStorage → Option String) :
    ∀ (books : List Book) (d : LibraryStorage) (x : Book),
      x ∈ (addBooks tbl io books d).Books → x ∈ d.Books ∨ x ∈ books
  | [], d, x, h => Or.inl h
  | b :: books, d, x, h => by
    have ih := addBooks_mem tbl io books (AddBook tbl io d b).1 x h
    rcases ih with ih | ih
    · unfold AddBook at ih
      split at ih
      · exact Or.inl ih
      · simp only [List.mem_append, List.mem_singleton] at ih
        rcases ih with ih | ih
        · exact Or.inl ih
        · exact Or.inr (by simp [ih])
    · exact Or.inr (List.mem_cons_of_mem _ ih)

/-- C15: for every catalog and every `(author, title)`, `GetBook` returns
not-found exactly when no book of the sequence matches both author and title
case-insensitively, and otherwise returns the first matching book in sequence
order; in particular, in a catalog built from the empty one by `AddBook` calls
only, a pair that matches none of the added books is not found. -/
theorem C15_get_book (tbl : Char → Char) (d : LibraryStorage) (author title : String) :
    (GetBook tbl d author title = none ↔
      ∀ b ∈ d.Books, bookMatches tbl author title b = false) ∧
    (∀ b : Book, GetBook tbl d author title = some b →
      ∃ idx : Nat, d.Books[idx]? = some b ∧ bookMatches tbl author title b = true ∧
        ∀ (j : Nat) (y : Book), j < idx → d.Books[j]? = some y →
          bookMatches tbl author title y = false) ∧
    (∀ (io : LibraryStorage → Option String) (added : List Book),
      (∀ b ∈ added, bookMatches tbl author title b = false) →
      GetBook tbl (addBooks tbl io added emptyCatalog) author title = none) := by
  have hnone : ∀ c : LibraryStorage,
      (GetBook tbl c author title = none ↔
        ∀ b ∈ c.Books, bookMatches tbl author title b = false) := by
    intro c
    constructor
    · intro h
      exact List.findIdx?_eq_none_iff.mp (findBookIndex_none_of_GetBook_none tbl c _ _ h)
    · intro h
      have hf : findBookIndex tbl c.Books author title = none :=
        List.findIdx?_eq_none_iff.mpr h
      unfold GetBook
      rw [hf]
  refine ⟨hnone d, ?_, ?_⟩
  · intro b hb
    unfold GetBook at hb
    split at hb
    · cases hb
    · rename_i idx hidx
      obtain ⟨x, hx, hm, hbefore⟩ := findIdx?_some_spec hidx
      rw [hx] at hb
      cases hb
      exact ⟨idx, hx, hm, hbefore⟩
  · intro io added hadded
    rw [hnone]
    intro b hb
    rcases addBooks_mem tbl io added emptyCatalog b hb with h | h
    · simp [emptyCatalog] at h
    · exact hadded b h

/-! ## No series without members -/

theorem updateSeries_nonEmpty (tbl : Char → Char) (series : List BookSeries)
    (seriesName : String) (book : Book) (h : MembersNonEmpty series) :
    MembersNonEmpty (updateSeries tbl series seriesName book) := by
  unfold updateSeries
  split
  · split
    · exact h
    · split
      · exact h
      · intro x hx
        rcases List.mem_or_eq_of_mem_set hx with hx | rfl
        · exact h x hx
        · simp
  · intro x hx
    rcases List.mem_append.mp hx with hx | hx
    · exact h x hx
    · simp at hx
      subst hx
      simp

theorem removeBookFromSeries_nonEmpty (tbl : Char → Char) (series : List BookSeries)
    (seriesName title author : String) (h : MembersNonEmpty series) :
    MembersNonEmpty (removeBookFromSeries tbl series seriesName title author) := by
  unfold removeBookFromSeries
  split
  · exact h
  · split
    · exact h
    · split
      · exact h
      · split
        · exact h
        · simp only
          split
          · intro x hx
            exact h x (List.mem_of_mem_eraseIdx hx)
          · rename_i hlen
            intro x hx
            rcases List.mem_or_eq_of_mem_set hx with hx | rfl
            · exact h x hx
            · intro hnil
              simp only at hnil
              exact hlen (by rw [hnil]; rfl)

theorem updateSeriesReadStatus_nonEmpty (tbl : Char → Char) (series : List BookSeries)
    (seriesName title author : String) (read : Bool) (h : MembersNonEmpty series) :
    MembersNonEmpty (updateSeriesReadStatus tbl series seriesName title author read) := by
  unfold updateSeriesReadStatus
  split
  · exact h
  · split
    · exact h
    · rename_i sr hsr
      split
      · exact h
      · split
        · exact h
        · intro x hx
          rcases List.mem_or_eq_of_mem_set hx with hx | rfl
          · exact h x hx
          · have hne := h sr (mem_of_getElem?_eq_some hsr)
            intro hnil
            simp only at hnil
            have hl := congrArg List.length hnil
            simp at hl
            exact hne hl

theorem Reachable_nonEmpty (tbl : Char → Char) (d : LibraryStorage) (h : Reachable tbl d) :
    MembersNonEmpty d.Series := by
  induction h with
  | empty => intro sr hsr; simp [emptyCatalog] at hsr
  | addBook io book _ ih =>
    unfold AddBook
    split
    · exact ih
    · simp only
      split
      · exact updateSeries_nonEmpty tbl _ _ _ ih
      · exact ih
  | editBook io a t nb _ ih =>
    unfold EditBook
    split
    · exact ih
    · split
      · exact ih
      · simp only
        split
        · exact updateSeries_nonEmpty tbl _ _ _ (removeBookFromSeries_nonEmpty tbl _ _ _ _ ih)
        · split
          · exact removeBookFromSeries_nonEmpty tbl _ _ _ _ ih
          · exact ih
  | removeBook io a t _ ih =>
    unfold RemoveBook
    split
    · exact ih
    · split
      · exact ih
      · simp only
        split
        · exact removeBookFromSeries_nonEmpty tbl _ _ _ _ ih
        · exact ih
  | addQuote io a t q _ ih =>
    rw [AddQuote_series]
    exact ih
  | markAsRead io a t r _ ih =>
    unfold MarkAsRead
    split
    · exact ih
    · split
      · exact ih
      · simp only
        split
        · exact updateSeriesReadStatus_nonEmpty tbl _ _ _ _ _ ih
        · exact ih

/-- C18: in every catalog reachable from the empty one by store mutations, no
series has an empty member list, and every series has `Total >= 1`. -/
theorem C18_no_empty_series (tbl : Char → Char) (d : LibraryStorage)
    (h : Reachable tbl d) :
    MembersNonEmpty d.Series ∧ ∀ sr ∈ d.Series, 1 ≤ sr.Total := by
  have hne := Reachable_nonEmpty tbl d h
  refine ⟨hne, ?_⟩
  intro sr hsr
  obtain ⟨h1, _⟩ := Reachable_counted tbl d h sr hsr
  have hpos : 0 < sr.Books.length := List.length_pos.mpr (hne sr hsr)
  rw [h1]
  exact_mod_cast hpos

/-- C18 (witness): after the last member of `S` is removed, the reachable
catalog has no series left, and so none without members. -/
theorem C18_no_empty_series_witness :
    Reachable id (RemoveBook id ioOk (AddBook id ioOk emptyCatalog bookT1).1 "A" "T1").1 ∧
      MembersNonEmpty
        (RemoveBook id ioOk (AddBook id ioOk emptyCatalog bookT1).1 "A" "T1").1.Series :=
  ⟨Reachable.removeBook ioOk "A" "T1" (Reachable.addBook ioOk bookT1 Reachable.empty),
    (C18_no_empty_series id _
      (Reachable.removeBook ioOk "A" "T1"
        (Reachable.addBook ioOk bookT1 Reachable.empty))).1⟩

/-! ## Absent books, and the outcome of the write -/

/-- C19: for every catalog and every `(author, title)` that matches no book of
the book sequence case-insensitively, each of `EditBook`, `RemoveBook`,
`AddQuote` and `MarkAsRead` reports no error and leaves the whole catalog
unchanged. -/
theorem C19_absent_book_is_noop (tbl : Char → Char) (io : LibraryStorage → Option String)
    (d : LibraryStorage) (author title : String) (newBook : Book) (quote : String)
    (read : Bool) (h : ∀ b ∈ d.Books, bookMatches tbl author title b = false) :
    EditBook tbl io d author title newBook = (d, none) ∧
    RemoveBook tbl io d author title = (d, none) ∧
    AddQuote tbl io d author title quote = (d, none) ∧
    MarkAsRead tbl io d author title read = (d, none) := by
  have hf : findBookIndex tbl d.Books author title = none :=
    List.findIdx?_eq_none_iff.mpr h
  refine ⟨?_, ?_, ?_, ?_⟩
  · unfold EditBook
    rw [hf]
  · unfold RemoveBook
    rw [hf]
  · unfold AddQuote
    rw [hf]
  · unfold MarkAsRead
    rw [hf]

/-- C19 (witness): `B`/`T2` is absent from the catalog that holds `bookT1`, even
for a write that would fail. -/
theorem C19_absent_book_is_noop_witness :
    EditBook id (fun _ => some "disk full") (AddBook id ioOk emptyCatalog bookT1).1 "B" "T2"
        editToS2 = ((AddBook id ioOk emptyCatalog bookT1).1, none) ∧
    RemoveBook id (fun _ => some "disk full") (AddBook id ioOk emptyCatalog bookT1).1 "B" "T2" =
        ((AddBook id ioOk emptyCatalog bookT1).1, none) ∧
    AddQuote id (fun _ => some "disk full") (AddBook id ioOk emptyCatalog bookT1).1 "B" "T2"
        "q" = ((AddBook id ioOk emptyCatalog bookT1).1, none) ∧
    MarkAsRead id (fun _ => some "disk full") (AddBook id ioOk emptyCatalog bookT1).1 "B" "T2"
        true = ((AddBook id ioOk emptyCatalog bookT1).1, none) :=
  C19_absent_book_is_noop id (fun _ => some "disk full")
    (AddBook id ioOk emptyCatalog bookT1).1 "B" "T2" editToS2 "q" true
    (by
      intro b hb
      have hb1 : b = bookT1 := by
        have : b ∈ [bookT1] := hb
        simpa using this
      rw [hb1]
      rfl)

/-- C20: with the write modelled as a step `io` that may succeed or fail, for
every catalog: `AddBook` with non-empty author and title returns exactly the
error of `save` on the catalog it leaves behind, leaves the same catalog for
every outcome of the write, and that catalog has the book appended; `EditBook`,
`RemoveBook`, `AddQuote` and `MarkAsRead` on an existing book likewise return
the error of `save`, leave the same catalog for every outcome of the write, and
in that catalog the book found is edited, removed, given the quote, or given the
flag (the mutation is applied and not rolled back). -/
theorem C20_save_outcome (tbl : Char → Char) (io io2 : LibraryStorage → Option String)
    (d : LibraryStorage) (book : Book) (author title : String) (newBook : Book)
    (quote : String) (read : Bool) :
    (book.Author ≠ "" → book.Title ≠ "" →
      (AddBook tbl io d book).2 = save io (AddBook tbl io d book).1 ∧
      (AddBook tbl io2 d book).1 = (AddBook tbl io d book).1 ∧
      (AddBook tbl io d book).1.Books = d.Books ++ [book]) ∧
    (findBookIndex tbl d.Books author title ≠ none →
      ∃ (idx : Nat) (b : Book),
        findBookIndex tbl d.Books author title = some idx ∧ d.Books[idx]? = some b ∧
        ((EditBook tbl io d author title newBook).2 =
            save io (EditBook tbl io d author title newBook).1 ∧
          (EditBook tbl io2 d author title newBook).1 =
            (EditBook tbl io d author title newBook).1 ∧
          (EditBook tbl io d author title newBook).1.Books =
            d.Books.set idx (editFields b newBook)) ∧
        ((RemoveBook tbl io d author title).2 =
            save io (RemoveBook tbl io d author title).1 ∧
          (RemoveBook tbl io2 d author title).1 = (RemoveBook tbl io d author title).1 ∧
          (RemoveBook tbl io d author title).1.Books = d.Books.eraseIdx idx) ∧
        ((AddQuote tbl io d author title quote).2 =
            save io (AddQuote tbl io d author title quote).1 ∧
          (AddQuote tbl io2 d author title quote).1 =
            (AddQuote tbl io d author title quote).1 ∧
          (AddQuote tbl io d author title quote).1.Books =
            d.Books.set idx { b with Quotes := b.Quotes ++ [quote] }) ∧
        ((MarkAsRead tbl io d author title read).2 =
            save io (MarkAsRead tbl io d author title read).1 ∧
          (MarkAsRead tbl io2 d author title read).1 =
            (MarkAsRead tbl io d author title read).1 ∧
          (MarkAsRead tbl io d author title read).1.Books =
            d.Books.set idx { b with Read := read })) := by
  constructor
  · intro hA hT
    have hne : ¬ (book.Author = "" ∨ book.Title = "") := by simp [hA, hT]
    unfold AddBook
    rw [if_neg hne, if_neg hne]
    exact ⟨rfl, rfl, rfl⟩
  · intro hex
    cases hfind : findBookIndex tbl d.Books author title with
    | none => exact absurd hfind hex
    | some idx =>
      obtain ⟨b, hget, _⟩ := findIdx?_some_spec hfind
      refine ⟨idx, b, rfl, hget, ?_, ?_, ?_, ?_⟩
      · unfold EditBook
        simp [hfind, hget, save]
      · unfold RemoveBook
        simp [hfind, hget, save]
      · unfold AddQuote
        simp [hfind, hget, save]
      · unfold MarkAsRead
        simp [hfind, hget, save]

/-- C20 (witness): on the empty catalog `AddBook` of `bookT1` with a failing
write reports the failure and still leaves `bookT1` in the book sequence; on
that catalog `RemoveBook` with a failing write reports the failure and still
leaves the book sequence empty. -/
theorem C20_save_outcome_witness :
    ((AddBook id ioFail emptyCatalog bookT1).2 = some "write failed" ∧
      (AddBook id ioFail emptyCatalog bookT1).1.Books = [bookT1]) ∧
    ((RemoveBook id ioFail (AddBook id ioOk emptyCatalog bookT1).1 "A" "T1").2 =
        some "write failed" ∧
      (RemoveBook id ioFail (AddBook id ioOk emptyCatalog bookT1).1 "A" "T1").1.Books = []) := by
  constructor
  · have h := (C20_save_outcome id ioFail ioOk emptyCatalog bookT1 "A" "T1" editNoSeries
      "q" true).1 (by decide) (by decide)
    exact ⟨h.1, h.2.2⟩
  · have hfound : findBookIndex id (AddBook id ioOk emptyCatalog bookT1).1.Books "A" "T1" =
        some 0 := rfl
    obtain ⟨idx, b, hf, _, _, hrm, _⟩ :=
      (C20_save_outcome id ioFail ioOk (AddBook id ioOk emptyCatalog bookT1).1 bookT1
        "A" "T1" editNoSeries "q" true).2 (by rw [hfound]; simp)
    rw [hfound] at hf
    cases hf
    exact ⟨hrm.1, hrm.2.2⟩

/-! ## The request layer and the year -/

/-- C16 (the code at the failing input): an add-book request for `bookT1`
followed by an edit-book request carrying the year 10000 are both answered with
success, and the book sequence then holds a book with year 10000. -/
theorem C16_edit_request_year_unchecked (tbl : Char → Char) :
    BookHandler.AddBook tbl ioOk emptyCatalog (some reqAddT1) =
        ({ Books := [bookT1]
           Series := [{ Name := "S", Books := [bookT1], Total := 1, Read := 0 }] }, 201) ∧
      BookHandler.EditBook tbl ioOk
          (BookHandler.AddBook tbl ioOk emptyCatalog (some reqAddT1)).1 "A" "T1"
          (some reqEditYear) =
        ({ Books := [{ bookT1 with Year := 10000, Series := "", SeriesOrder := 0 }]
           Series := [] }, 200) :=
  ⟨rfl, rfl⟩

/-! ## Save, then load -/

theorem mapM_map_roundtrip {α : Type} (f : α → Json) (g : Json → Option α)
    (h : ∀ a, g (f a) = some a) : ∀ l : List α, (l.map f).mapM g = some l
  | [] => rfl
  | a :: l => by
    rw [List.map_cons, List.mapM_cons, h a, mapM_map_roundtrip f g h l]
    rfl

theorem unmarshalStrings_roundtrip (qs : List String) :
    unmarshalStrings (Json.arr (qs.map Json.str)) = some qs := by
  unfold unmarshalStrings
  exact mapM_map_roundtrip Json.str (fun x => unmarshalString x "") (fun _ => rfl) qs

theorem setBookField_title (tbl : Char → Char) (b : Book) (v : Json) :
    setBookField tbl b "title" v =
      (unmarshalString v b.Title).map (fun x => { b with Title := x }) := rfl

theorem setBookField_author (tbl : Char → Char) (b : Book) (v : Json) :
    setBookField tbl b "author" v =
      (unmarshalString v b.Author).map (fun x => { b with Author := x }) := rfl

theorem setBookField_genre (tbl : Char → Char) (b : Book) (v : Json) :
    setBookField tbl b "genre" v =
      (unmarshalString v b.Genre).map (fun x => { b with Genre := x }) := rfl

theorem setBookField_year (tbl : Char → Char) (b : Book) (v : Json) :
    setBookField tbl b "year" v =
      (unmarshalInt v b.Year).map (fun x => { b with Year := x }) := rfl

theorem setBookField_read (tbl : Char → Char) (b : Book) (v : Json) :
    setBookField tbl b "read" v =
      (unmarshalBool v b.Read).map (fun x => { b with Read := x }) := rfl

theorem setBookField_quotes (tbl : Char → Char) (b : Book) (v : Json) :
    setBookField tbl b "quotes" v =
      (unmarshalStrings v).map (fun x => { b with Quotes := x }) := rfl

theorem setBookField_series (tbl : Char → Char) (b : Book) (v : Json) :
    setBookField tbl b "series" v =
      (unmarshalString v b.Series).map (fun x => { b with Series := x }) := rfl

theorem setBookField_series_order (tbl : Char → Char) (b : Book) (v : Json) :
    setBookField tbl b "series_order" v =
      (unmarshalInt v b.SeriesOrder).map (fun x => { b with SeriesOrder := x }) := rfl

theorem unmarshalBook_roundtrip (tbl : Char → Char) (b : Book) :
    unmarshalBook tbl (marshalBook b) zeroBook = some b := by
  obtain ⟨t, a, g, y, r, q, s, o⟩ := b
  unfold marshalBook unmarshalBook
  by_cases hs : s = "" <;> by_cases ho : o = 0 <;>
    simp [hs, ho, List.foldlM, setBookField_title, setBookField_author, setBookField_genre,
      setBookField_year, setBookField_read, setBookField_quotes, setBookField_series,
      setBookField_series_order, unmarshalString, unmarshalInt, unmarshalBool,
      unmarshalStrings_roundtrip, zeroBook]

theorem unmarshalBooks_roundtrip (tbl : Char → Char) (books : List Book) :
    unmarshalBooks tbl (Json.arr (books.map marshalBook)) = some books := by
  unfold unmarshalBooks
  exact mapM_map_roundtrip marshalBook (fun x => unmarshalBook tbl x zeroBook)
    (unmarshalBook_roundtrip tbl) books

theorem setSeriesField_name (tbl : Char → Char) (sr : BookSeries) (v : Json) :
    setSeriesField tbl sr "name" v =
      (unmarshalString v sr.Name).map (fun x => { sr with Name := x }) := rfl

theorem setSeriesField_books (tbl : Char → Char) (sr : BookSeries) (v : Json) :
    setSeriesField tbl sr "books" v =
      (unmarshalBooks tbl v).map (fun x => { sr with Books := x }) := rfl

theorem setSeriesField_total (tbl : Char → Char) (sr : BookSeries) (v : Json) :
    setSeriesField tbl sr "total" v =
      (unmarshalInt v sr.Total).map (fun x => { sr with Total := x }) := rfl

theorem setSeriesField_read (tbl : Char → Char) (sr : BookSeries) (v : Json) :
    setSeriesField tbl sr "read" v =
      (unmarshalInt v sr.Read).map (fun x => { sr with Read := x }) := rfl

theorem unmarshalBookSeries_roundtrip (tbl : Char → Char) (sr : BookSeries) :
    unmarshalBookSeries tbl (marshalBookSeries sr) zeroBookSeries = some sr := by
  obtain ⟨n, bs, t, r⟩ := sr
  unfold marshalBookSeries unmarshalBookSeries
  simp [List.foldlM, setSeriesField_name, setSeriesField_books, setSeriesField_total,
    setSeriesField_read, unmarshalString, unmarshalInt, unmarshalBooks_roundtrip,
    zeroBookSeries]

theorem unmarshalSeriesList_roundtrip (tbl : Char → Char) (series : List BookSeries) :
    unmarshalSeriesList tbl (Json.arr (series.map marshalBookSeries)) = some series := by
  unfold unmarshalSeriesList
  exact mapM_map_roundtrip marshalBookSeries
    (fun x => unmarshalBookSeries tbl x zeroBookSeries)
    (unmarshalBookSeries_roundtrip tbl) series

theorem setStorageField_books (tbl : Char → Char) (d : LibraryStorage) (v : Json) :
    setStorageField tbl d "books" v =
      (unmarshalBooks tbl v).map (fun x => { d with Books := x }) := rfl

theorem setStorageField_series (tbl : Char → Char) (d : LibraryStorage) (v : Json) :
    setStorageField tbl d "series" v =
      (unmarshalSeriesList tbl v).map (fun x => { d with Series := x }) := rfl

/-- C17: for every catalog, loading into a fresh store the document that `save`
writes for it gives back the same catalog: the same books and series in the
same order with the same value in every field. -/
theorem C17_save_load_roundtrip (tbl : Char → Char) (d : LibraryStorage) :
    load tbl (some (marshalLibraryStorage d)) emptyCatalog = some d := by
  obtain ⟨books, series⟩ := d
  unfold load marshalLibraryStorage unmarshalLibraryStorage
  simp [List.foldlM, setStorageField_books, setStorageField_series,
    unmarshalBooks_roundtrip, unmarshalSeriesList_roundtrip, emptyCatalog]

end Library
